import Mathlib

/-!
# Verification of three source files

* namespace `packet`: the message envelope, `arpc/packet/packet.go`;
* namespace `httpx`: the response wrapper, `util/httpx/zresponse.go`;
* namespace `watcher`: the watcher of the local registry,
  `registry/local/watcher.go`.

The definitions of the three parts come first, the theorems follow.

# Message envelope of the RPC transport (`arpc/packet/packet.go`)

A shallow embedding of `Packet` and of its operations `Extra`, `SetExtra`,
`Head`, `SetHead`, `Encode`, `Decode`, `DecodeBody` and `Reset`.

Conventions of the embedding

* A Go `string` is a sequence of bytes, a byte is a natural number.
* `uint`, `uint16`, `uint64` values are natural numbers; where the source
  computes in 64 bits the reduction `% 2 ^ 64` is written out.
* A Go pointer or interface that may be `nil` is an `Option`.
* A run-time panic (index out of range) is the result `none` of an
  operation returning `Option`; a returned `error` is an `Option Error`
  inside the result.
* Calls to the pluggable codec are recorded in a trace, so that
  "the codec is not invoked" is a statement about the function's result.

The header `Writer` and `Reader` (other files of package `packet`), the byte
`Buffer` (package `util/buffer`), the codec interface (package `codec`) and
the flag constants (package `arpc`) are modelled from the specification and
marked as such.
-/

namespace packet

/-! ## Data model -/

/-- A byte of the wire form. -/
abbrev Byte := Nat

/-- A Go `string`: an immutable sequence of bytes. -/
abbrev GoString := List Byte

/-- The `error` values that the operations of the packet can return. -/
inductive Error where
  /-- `errors.New("bad extra key, must be in [0-6]")` of `SetExtra`. -/
  | badExtraKey
  /-- `errors.New("packet no codec")` of `Encode`. -/
  | packetNoCodec
  /-- `errors.New("no codec")` of `DecodeBody`. -/
  | noCodec
  /-- An error of the header reader: truncated or inconsistent header bytes. -/
  | malformed
  /-- An error produced by the codec, identified by a code. -/
  | codec (code : Nat)
  deriving DecidableEq, Repr

/-- Modelled from the spec: the byte buffer `buffer.Buffer` (package
`util/buffer` is missing): "append bytes, append another buffer's contents,
provide a readable cursor over remaining bytes".  `data` holds all bytes,
`pos` is the read cursor. -/
structure Buffer where
  data : List Byte
  pos : Nat
  deriving DecidableEq, Repr

namespace Buffer

/-- Modelled from the spec: `buffer.New()` (missing), an empty buffer. -/
def New : Buffer := ⟨[], 0⟩

/-- Modelled from the spec: `Buffer.Append` (missing) appends bytes at the end. -/
def Append (b : Buffer) (bs : List Byte) : Buffer := { b with data := b.data ++ bs }

/-- Modelled from the spec: `Buffer.AppendBuffer` (missing) appends another
buffer's contents at the end. -/
def AppendBuffer (b : Buffer) (other : Buffer) : Buffer :=
  { b with data := b.data ++ other.data }

/-- The bytes after the read cursor. -/
def remaining (b : Buffer) : List Byte := b.data.drop b.pos

/-- Advance the read cursor by `n` bytes. -/
def skip (b : Buffer) (n : Nat) : Buffer := { b with pos := b.pos + n }

end Buffer

/-- A non-nil dynamic value held in an `interface{}`: a `*buffer.Buffer` or
any other value, which the packet never inspects and which is identified by a
reference. A pointer to a buffer is either a pointer to a buffer of its own,
given with the contents of that buffer, or the very pointer that the packet
holds in its field `buffer` (after `SetBuffer(b); SetBody(b)`), which is then
not nil. -/
inductive Any where
  /-- A `*buffer.Buffer` other than the packet's own buffer. -/
  | buf (b : Buffer)
  /-- Any value that is not a `*buffer.Buffer`. -/
  | val (ref : Nat)
  /-- The `*buffer.Buffer` that is also the field `buffer` of the packet. -/
  | ownBuffer
  deriving DecidableEq, Repr

/-- Modelled from the spec: the interface `codec.Codec` (package `codec` is
missing): `encode(buffer, typedValue) -> error-or-success` and
`decode(buffer, targetValue) -> error-or-success`.  Each function returns the
state of the buffer it was handed together with the error. -/
structure Codec where
  Encode : Buffer → Option Any → Buffer × Option Error
  Decode : Option Buffer → Option Any → Option Buffer × Option Error

/-- One invocation of the codec, with the arguments it received. -/
inductive CodecCall where
  | encode (buf : Buffer) (v : Option Any)
  | decode (buf : Option Buffer) (v : Option Any)
  deriving DecidableEq, Repr

/-- The type `Packet` of `packet.go`, field by field.  `callInfo` is a
pointer to an `arpc.CallInfo`, kept as a reference. -/
structure Packet where
  contentType : Nat
  command : Nat
  ack : Bool
  status : Nat
  seqID : GoString
  msgID : Nat
  name : GoString
  method : GoString
  service : GoString
  extras : List GoString
  heads : Option (List (GoString × GoString))
  body : Option Any
  buffer : Option Buffer
  codec : Option Codec
  internal : Option Any
  ttl : Int
  retry : Int
  priority : Int
  callInfo : Option Nat

/-- `New()`: `&Packet{}`, every field at its zero value. -/
def New : Packet :=
  { contentType := 0, command := 0, ack := false, status := 0, seqID := [],
    msgID := 0, name := [], method := [], service := [], extras := [],
    heads := none, body := none, buffer := none, codec := none,
    internal := none, ttl := 0, retry := 0, priority := 0, callInfo := none }

/-- The values of the fields lie in the range of their Go types, and `heads`,
a Go map, has no key twice. -/
structure Packet.WellTyped (p : Packet) : Prop where
  contentType_lt : p.contentType < 2 ^ 64
  command_lt : p.command < 2 ^ 64
  status_lt : p.status < 2 ^ 64
  msgID_lt : p.msgID < 2 ^ 16
  heads_nodup : ∀ m, p.heads = some m → (m.map Prod.fst).Nodup

/-! ## Flag constants -/

/-- Modelled from the spec: the flag positions of package `arpc` (missing):
every named field has one bit, in the order in which `Encode` writes the
fields; the extension slots take the consecutive bits that follow. -/
def HFAck : Nat := 0
/-- Modelled from the spec: bit of `status` (package `arpc` is missing). -/
def HFStatus : Nat := 1
/-- Modelled from the spec: bit of `contentType` (package `arpc` is missing). -/
def HFContentType : Nat := 2
/-- Modelled from the spec: bit of `command` (package `arpc` is missing). -/
def HFCommand : Nat := 3
/-- Modelled from the spec: bit of `seqID` (package `arpc` is missing). -/
def HFSeqID : Nat := 4
/-- Modelled from the spec: bit of `msgID` (package `arpc` is missing). -/
def HFMsgID : Nat := 5
/-- Modelled from the spec: bit of `name` (package `arpc` is missing). -/
def HFName : Nat := 6
/-- Modelled from the spec: bit of `method` (package `arpc` is missing). -/
def HFMethod : Nat := 7
/-- Modelled from the spec: bit of `service` (package `arpc` is missing). -/
def HFService : Nat := 8
/-- Modelled from the spec: bit of `heads` (package `arpc` is missing). -/
def HFHeadMap : Nat := 9
/-- Modelled from the spec: first bit of the extension slots, "immediately
following the named fields" (package `arpc` is missing). -/
def HFExtra : Nat := 10
/-- Modelled from the spec: the maximum slot count, `0 <= index < 7`
(package `arpc` is missing). -/
def HFExtraMax : Nat := 7
/-- Modelled from the spec: one past the last extension bit (package `arpc`
is missing). -/
def HFMax : Nat := HFExtra + HFExtraMax
/-- Modelled from the spec: the "extra-mask covering exactly the
extension-slot bit range" (package `arpc` is missing). -/
def HFExtraMask : Nat := (2 ^ HFExtraMax - 1) <<< HFExtra

/-! ## Accessors of the extension slots and of the head map -/

/-- `Packet.Extra`. -/
def Extra (p : Packet) (key : Nat) : GoString :=
  if key < p.extras.length then p.extras.getD key [] else []

/-- `Packet.SetExtra`.  The slice that is allocated when `key` lies beyond
`len(p.extras)` is a local variable that is never stored in `p.extras`; the
assignment `p.extras[key] = value` that follows indexes the old slice and
panics (`none`) when `key` is out of its range. -/
def SetExtra (p : Packet) (key : Nat) (value : GoString) : Option (Packet × Option Error) :=
  if key ≥ HFExtraMax then
    some (p, some Error.badExtraKey)
  else
    let _extras : List GoString :=
      if key ≥ p.extras.length then
        p.extras ++ List.replicate (key + 1 - p.extras.length) []
      else []
    if key < p.extras.length then
      some ({ p with extras := p.extras.set key value }, none)
    else
      none

/-- Lookup in a Go map kept as a list of entries; a missing key gives the
empty string. -/
def mapGet (m : List (GoString × GoString)) (key : GoString) : GoString :=
  match m.find? (fun e => e.1 == key) with
  | some e => e.2
  | none => []

/-- Assignment `m[key] = value` in a Go map kept as a list of entries. -/
def mapSet : List (GoString × GoString) → GoString → GoString → List (GoString × GoString)
  | [], key, value => [(key, value)]
  | e :: m, key, value =>
    if e.1 = key then (key, value) :: m else e :: mapSet m key value

/-- `Packet.Head`. -/
def Head (p : Packet) (key : GoString) : GoString :=
  match p.heads with
  | some m => mapGet m key
  | none => []

/-- `Packet.SetHead`. -/
def SetHead (p : Packet) (key value : GoString) : Packet :=
  let heads := match p.heads with
    | some m => m
    | none => []
  { p with heads := some (mapSet heads key value) }

/-- `Packet.Reset`: `*p = Packet{}`. -/
def Reset (_p : Packet) : Packet := New

/-! ## Header writer -/

/-- Modelled from the spec: the "minimal variable-length encoding" of an
unsigned integer used by the header `Writer` (missing): seven bits per byte,
low group first, the high bit set on every byte but the last.  The first
argument bounds the number of bytes. -/
def putUvarintAux : Nat → Nat → List Byte
  | 0, n => [n]
  | fuel + 1, n =>
    if n < 128 then [n] else (n % 128 + 128) :: putUvarintAux fuel (n / 128)

/-- Modelled from the spec: the variable-length encoding of `n` (header
`Writer`, missing). -/
def putUvarint (n : Nat) : List Byte := putUvarintAux n n

/-- Modelled from the spec: a string on the wire is "length-prefixed bytes"
(header `Writer`, missing). -/
def putString (s : GoString) : List Byte := putUvarint s.length ++ s

/-- Modelled from the spec: the entries of a mapping on the wire,
"length-prefixed key/value pairs" (header `Writer`, missing). -/
def putEntries : List (GoString × GoString) → List Byte
  | [] => []
  | e :: es => putString e.1 ++ (putString e.2 ++ putEntries es)

/-- Modelled from the spec: a mapping on the wire is an "entry-count prefix
followed by length-prefixed key/value pairs" (header `Writer`, missing). -/
def putMap (m : List (GoString × GoString)) : List Byte :=
  putUvarint m.length ++ putEntries m

/-- Modelled from the spec: the header `Writer` (file missing), which
"accumulates a bitmask and the byte encoding of each field that is actually
present". -/
structure Writer where
  flag : Nat
  data : List Byte
  deriving DecidableEq, Repr

namespace Writer

/-- Modelled from the spec: `Writer.Init` (missing): "bitmask = 0, byte
accumulator empty". -/
def Init : Writer := ⟨0, []⟩

/-- Modelled from the spec: `Writer.WriteBool` (missing): "boolean → no
payload bytes, only the bit"; a default value leaves the bit clear. -/
def WriteBool (w : Writer) (v : Bool) (mask : Nat) : Writer :=
  if v then { w with flag := w.flag ||| mask } else w

/-- Modelled from the spec: `Writer.WriteUint` (missing): a non-zero value is
encoded and its bit set; zero writes nothing. -/
def WriteUint (w : Writer) (v : Nat) (mask : Nat) : Writer :=
  if v ≠ 0 then ⟨w.flag ||| mask, w.data ++ putUvarint v⟩ else w

/-- Modelled from the spec: `Writer.WriteString` (missing): a non-empty
string is encoded and its bit set; the empty string writes nothing. -/
def WriteString (w : Writer) (s : GoString) (mask : Nat) : Writer :=
  if s ≠ [] then ⟨w.flag ||| mask, w.data ++ putString s⟩ else w

/-- Modelled from the spec: `Writer.WriteMap` (missing): a non-empty mapping
is encoded and its bit set; a nil or empty mapping writes nothing. -/
def WriteMap (w : Writer) (m : Option (List (GoString × GoString))) (mask : Nat) : Writer :=
  match m with
  | some (e :: es) => ⟨w.flag ||| mask, w.data ++ putMap (e :: es)⟩
  | _ => w

/-- Modelled from the spec: `Writer.Flush` (missing) "returns the final
encoded header as `[bitmask][field bytes in fixed declaration order]`"; the
bitmask is written in the variable-length encoding of unsigned integers. -/
def Flush (w : Writer) : List Byte := putUvarint w.flag ++ w.data

end Writer

/-! ## Header reader -/

/-- Modelled from the spec: decoding of a variable-length unsigned integer
(header `Reader`, missing).  The result is the value and the number of bytes
read; `none` when the bytes run out. -/
def readUvarint : List Byte → Option (Nat × Nat)
  | [] => none
  | b :: bs =>
    if b < 128 then some (b, 1)
    else
      match readUvarint bs with
      | none => none
      | some (v, k) => some (b % 128 + 128 * v, k + 1)

/-- Modelled from the spec: decoding of a length-prefixed string (header
`Reader`, missing); `none` when the bytes run out. -/
def readString (bs : List Byte) : Option (GoString × Nat) :=
  match readUvarint bs with
  | none => none
  | some (n, k) =>
    if n ≤ (bs.drop k).length then some ((bs.drop k).take n, k + n) else none

/-- Modelled from the spec: decoding of `n` key/value pairs (header `Reader`,
missing); `none` when the bytes run out. -/
def readEntries : Nat → List Byte → Option (List (GoString × GoString) × Nat)
  | 0, _ => some ([], 0)
  | n + 1, bs =>
    match readString bs with
    | none => none
    | some (key, c1) =>
      match readString (bs.drop c1) with
      | none => none
      | some (value, c2) =>
        match readEntries n (bs.drop (c1 + c2)) with
        | none => none
        | some (es, c3) => some ((key, value) :: es, c1 + c2 + c3)

/-- Modelled from the spec: decoding of a mapping (header `Reader`, missing):
the entries are stored one by one in a new map. -/
def readMap (bs : List Byte) : Option (List (GoString × GoString) × Nat) :=
  match readUvarint bs with
  | none => none
  | some (n, k) =>
    match readEntries n (bs.drop k) with
    | none => none
    | some (es, c) => some (es.foldl (fun m e => mapSet m e.1 e.2) [], k + c)

/-- Modelled from the spec: the header `Reader` (file missing): the parsed
bitmask and the buffer it reads from. -/
structure Reader where
  flag : Nat
  buff : Buffer
  deriving DecidableEq, Repr

namespace Reader

/-- Modelled from the spec: `Reader.Init` (missing) "reads the bitmask from
the front of the buffer; fails with a malformed-header error if the buffer is
too short to contain a full bitmask". -/
def Init (b : Option Buffer) : Except Error Reader :=
  match b with
  | none => .error Error.malformed
  | some b =>
    match readUvarint b.remaining with
    | none => .error Error.malformed
    | some (v, k) => .ok ⟨v % 2 ^ 64, b.skip k⟩

/-- Modelled from the spec: `Reader.HasFlag` (missing) "tests bit(s) against
the parsed bitmask without consuming bytes". -/
def HasFlag (r : Reader) (mask : Nat) : Bool := r.flag &&& mask != 0

/-- Modelled from the spec: `Reader.ReadBool` (missing): "if the bit is
unset, leaves dest untouched"; a set bit stands for `true`.  The result is
the value of `dest` after the call. -/
def ReadBool (r : Reader) (dest : Bool) (mask : Nat) : Bool :=
  if r.HasFlag mask then true else dest

/-- Modelled from the spec: `Reader.ReadUint` (missing): "if the bit is
unset, leaves dest untouched and returns success; if set, decodes the next
field's bytes ... and writes into dest, failing ... if the buffer runs out". -/
def ReadUint (r : Reader) (dest : Nat) (mask : Nat) : Except Error (Reader × Nat) :=
  if r.HasFlag mask then
    match readUvarint r.buff.remaining with
    | none => .error Error.malformed
    | some (v, k) => .ok (⟨r.flag, r.buff.skip k⟩, v % 2 ^ 64)
  else .ok (r, dest)

/-- Modelled from the spec: `Reader.ReadUint16` (missing), as `ReadUint` for
a 16-bit destination. -/
def ReadUint16 (r : Reader) (dest : Nat) (mask : Nat) : Except Error (Reader × Nat) :=
  if r.HasFlag mask then
    match readUvarint r.buff.remaining with
    | none => .error Error.malformed
    | some (v, k) => .ok (⟨r.flag, r.buff.skip k⟩, v % 2 ^ 16)
  else .ok (r, dest)

/-- Modelled from the spec: `Reader.ReadStringDirect` (missing) reads the
next string, with "no explicit bit argument". -/
def ReadStringDirect (r : Reader) : Except Error (Reader × GoString) :=
  match readString r.buff.remaining with
  | none => .error Error.malformed
  | some (s, k) => .ok (⟨r.flag, r.buff.skip k⟩, s)

/-- Modelled from the spec: `Reader.ReadString` (missing): reads the string
when the bit is set, leaves `dest` untouched otherwise. -/
def ReadString (r : Reader) (dest : GoString) (mask : Nat) : Except Error (Reader × GoString) :=
  if r.HasFlag mask then r.ReadStringDirect else .ok (r, dest)

/-- Modelled from the spec: `Reader.ReadMap` (missing): reads the mapping
when the bit is set, leaves `dest` untouched otherwise. -/
def ReadMap (r : Reader) (dest : Option (List (GoString × GoString))) (mask : Nat) :
    Except Error (Reader × Option (List (GoString × GoString))) :=
  if r.HasFlag mask then
    match readMap r.buff.remaining with
    | none => .error Error.malformed
    | some (m, k) => .ok (⟨r.flag, r.buff.skip k⟩, some m)
  else .ok (r, dest)

end Reader

/-! ## Encode, Decode, DecodeBody -/

/-- What a call of `Encode`, `Decode` or `DecodeBody` leaves behind: the
packet after the call, the returned `error` (`none` for `nil`) and the calls
made to the codec, in order. -/
structure Ret where
  p : Packet
  err : Option Error
  calls : List CodecCall

/-- The loop `for i, v := range p.extras` of `Encode`; `i` is the index of
the first slot of the list.  The mask `1<<(uint(i)+arpc.HFExtra)` is a 64-bit
value. -/
def encodeExtras (w : Writer) : Nat → List GoString → Writer
  | _, [] => w
  | i, v :: vs =>
    encodeExtras (w.WriteString v ((1 <<< (i + HFExtra)) % 2 ^ 64)) (i + 1) vs

/-- The header part of `Encode`: the writer after all named fields and all
extension slots have been passed to it. -/
def encodeHead (p : Packet) : Writer :=
  let w := Writer.Init
  let w := w.WriteBool p.ack (1 <<< HFAck)
  let w := w.WriteUint p.status (1 <<< HFStatus)
  let w := w.WriteUint p.contentType (1 <<< HFContentType)
  let w := w.WriteUint p.command (1 <<< HFCommand)
  let w := w.WriteString p.seqID (1 <<< HFSeqID)
  let w := w.WriteUint p.msgID (1 <<< HFMsgID)
  let w := w.WriteString p.name (1 <<< HFName)
  let w := w.WriteString p.method (1 <<< HFMethod)
  let w := w.WriteString p.service (1 <<< HFService)
  let w := w.WriteMap p.heads (1 <<< HFHeadMap)
  encodeExtras w 0 p.extras

/-- `Packet.Encode`. When the body is the packet's own buffer, the argument
of `AppendBuffer` is the buffer that has just received the header. -/
def Encode (p : Packet) : Ret :=
  let buffer := match p.buffer with
    | some b => b
    | none => Buffer.New
  let w := encodeHead p
  let buffer := buffer.Append w.Flush
  let p := { p with buffer := some buffer }
  match p.body with
  | none => ⟨p, none, []⟩
  | some (Any.buf body) =>
    ⟨{ p with buffer := some (buffer.AppendBuffer body) }, none, []⟩
  | some Any.ownBuffer =>
    ⟨{ p with buffer := some (buffer.AppendBuffer buffer) }, none, []⟩
  | some (Any.val ref) =>
    match p.codec with
    | some c =>
      let res := c.Encode Buffer.New (some (Any.val ref))
      match res.2 with
      | some err => ⟨p, some err, [CodecCall.encode Buffer.New (some (Any.val ref))]⟩
      | none =>
        ⟨{ p with buffer := some (buffer.AppendBuffer res.1) }, none,
          [CodecCall.encode Buffer.New (some (Any.val ref))]⟩
    | none => ⟨p, some Error.packetNoCodec, []⟩

/-- The loop `for i := arpc.HFExtra; i < arpc.HFMax; i++` of `Decode`; the
first argument is the number of iterations left.  Every iteration reads one
string; a non-empty one is stored with `SetExtra`, whose returned error is
dropped and whose panic ends the call. -/
def decodeExtras : Nat → Nat → Packet → Reader → Option (Packet × Reader × Option Error)
  | 0, _, p, r => some (p, r, none)
  | n + 1, i, p, r =>
    match r.ReadStringDirect with
    | .error err => some (p, r, some err)
    | .ok (r, s) =>
      if s = [] then decodeExtras n (i + 1) p r
      else
        let key := i - HFExtra
        match SetExtra p key s with
        | none => none
        | some (p, _) => decodeExtras n (i + 1) p r

/-- The header part of `Decode` up to the head map.  The reader works on the
buffer of the packet, so the packet that comes back holds the buffer as the
reader left it. -/
def decodeHead (p : Packet) (r : Reader) : Packet × Reader × Option Error :=
  let p := { p with ack := r.ReadBool p.ack (1 <<< HFAck) }
  match r.ReadUint p.status (1 <<< HFStatus) with
  | .error err => (p, r, some err)
  | .ok (r, status) =>
  let p := { p with status := status }
  match r.ReadUint p.contentType (1 <<< HFContentType) with
  | .error err => (p, r, some err)
  | .ok (r, contentType) =>
  let p := { p with contentType := contentType }
  match r.ReadUint p.command (1 <<< HFCommand) with
  | .error err => (p, r, some err)
  | .ok (r, command) =>
  let p := { p with command := command }
  match r.ReadString p.seqID (1 <<< HFSeqID) with
  | .error err => (p, r, some err)
  | .ok (r, seqID) =>
  let p := { p with seqID := seqID }
  match r.ReadUint16 p.msgID (1 <<< HFMsgID) with
  | .error err => (p, r, some err)
  | .ok (r, msgID) =>
  let p := { p with msgID := msgID }
  match r.ReadString p.name (1 <<< HFName) with
  | .error err => (p, r, some err)
  | .ok (r, name) =>
  let p := { p with name := name }
  match r.ReadString p.method (1 <<< HFMethod) with
  | .error err => (p, r, some err)
  | .ok (r, method) =>
  let p := { p with method := method }
  match r.ReadString p.service (1 <<< HFService) with
  | .error err => (p, r, some err)
  | .ok (r, service) =>
  let p := { p with service := service }
  match r.ReadMap p.heads (1 <<< HFHeadMap) with
  | .error err => (p, r, some err)
  | .ok (r, heads) =>
  ({ p with heads := heads }, r, none)

/-- `Packet.Decode`; `none` is a panic. -/
def Decode (p : Packet) : Option Ret :=
  match Reader.Init p.buffer with
  | .error err => some ⟨p, some err, []⟩
  | .ok r =>
    match decodeHead p r with
    | (p, r, some err) => some ⟨{ p with buffer := some r.buff }, some err, []⟩
    | (p, r, none) =>
      let extra :=
        if r.HasFlag (HFExtraMask % 2 ^ 64) then decodeExtras (HFMax - HFExtra) HFExtra p r
        else some (p, r, none)
      match extra with
      | none => none
      | some (p, r, some err) => some ⟨{ p with buffer := some r.buff }, some err, []⟩
      | some (p, r, none) =>
        let p := { p with buffer := some r.buff }
        match p.body, p.codec with
        | some body, some c =>
          let res := c.Decode p.buffer (some body)
          some ⟨{ p with buffer := res.1 }, res.2, [CodecCall.decode p.buffer (some body)]⟩
        | _, _ => some ⟨p, none, []⟩

/-- `Packet.DecodeBody`. -/
def DecodeBody (p : Packet) (msg : Option Any) : Ret :=
  match p.codec with
  | none => ⟨p, some Error.noCodec, []⟩
  | some c =>
    let res := c.Decode p.buffer msg
    match res.2 with
    | some err => ⟨{ p with buffer := res.1 }, some err, [CodecCall.decode p.buffer msg]⟩
    | none =>
      ⟨{ p with buffer := res.1, body := msg }, none, [CodecCall.decode p.buffer msg]⟩

/-! ## The bytes of the header, field by field -/

/-- The bytes that `WriteUint` adds for the value `v`. -/
def segUint (v : Nat) : List Byte := if v ≠ 0 then putUvarint v else []

/-- The bytes that `WriteString` adds for the string `s`. -/
def segString (s : GoString) : List Byte := if s ≠ [] then putString s else []

/-- The bytes that `WriteMap` adds for the mapping `m`. -/
def segMap (m : Option (List (GoString × GoString))) : List Byte :=
  match m with
  | some (e :: es) => putMap (e :: es)
  | _ => []

/-- The bytes that `Encode` writes for the extension slots. -/
def segExtras : List GoString → List Byte
  | [] => []
  | v :: vs => segString v ++ segExtras vs

/-- The bytes that `Encode` writes for the named fields, in the order of the
calls. -/
def namedBytes (p : Packet) : List Byte :=
  segUint p.status ++ (segUint p.contentType ++ (segUint p.command ++ (segString p.seqID ++
    (segUint p.msgID ++ (segString p.name ++ (segString p.method ++ (segString p.service ++
      segMap p.heads)))))))

/-- The mapping `m` is non-empty (neither nil nor without entries). -/
def nonEmptyMap (m : Option (List (GoString × GoString))) : Bool :=
  match m with
  | some (_ :: _) => true
  | _ => false

/-- The mapping `p.heads` is non-empty. -/
def hasHeads (p : Packet) : Bool := nonEmptyMap p.heads

/-- The presence bit that the claim on presence bits expects at position `j`
of the bitmask: a named field that differs from its default, or an occupied
extension slot. -/
def expectedBit (p : Packet) (j : Nat) : Bool :=
  (p.ack && decide (HFAck = j)) ||
  (decide (p.status ≠ 0) && decide (HFStatus = j)) ||
  (decide (p.contentType ≠ 0) && decide (HFContentType = j)) ||
  (decide (p.command ≠ 0) && decide (HFCommand = j)) ||
  (decide (p.seqID ≠ []) && decide (HFSeqID = j)) ||
  (decide (p.msgID ≠ 0) && decide (HFMsgID = j)) ||
  (decide (p.name ≠ []) && decide (HFName = j)) ||
  (decide (p.method ≠ []) && decide (HFMethod = j)) ||
  (decide (p.service ≠ []) && decide (HFService = j)) ||
  (hasHeads p && decide (HFHeadMap = j)) ||
  decide (HFExtra ≤ j ∧ j < 64 ∧ p.extras.getD (j - HFExtra) [] ≠ [])

/-- The named fields of `q` after the header of `x` has been read into it:
a field of `x` that differs from its default replaces the field of `q`, a
default field of `x` leaves the field of `q` as it is. -/
def readNamed (q x : Packet) : Packet :=
  { q with
    ack := if x.ack then true else q.ack
    status := if x.status ≠ 0 then x.status else q.status
    contentType := if x.contentType ≠ 0 then x.contentType else q.contentType
    command := if x.command ≠ 0 then x.command else q.command
    seqID := if x.seqID ≠ [] then x.seqID else q.seqID
    msgID := if x.msgID ≠ 0 then x.msgID else q.msgID
    name := if x.name ≠ [] then x.name else q.name
    method := if x.method ≠ [] then x.method else q.method
    service := if x.service ≠ [] then x.service else q.service
    heads := if hasHeads x then x.heads else q.heads }

/-! ## What `Encode` leaves in the buffer -/

/-- The contents of the buffer a packet holds; nothing for a nil buffer. -/
def bufferData (b : Option Buffer) : List Byte :=
  match b with
  | some b => b.data
  | none => []

/-- The unread bytes of the buffer a packet holds; nothing for a nil buffer. -/
def bufferRemaining (b : Option Buffer) : List Byte :=
  match b with
  | some b => b.remaining
  | none => []

/-- The bytes that a call of `Encode` on `p` adds to the buffer. -/
def writtenBytes (p : Packet) : List Byte :=
  (bufferData (Encode p).p.buffer).drop (bufferData p.buffer).length

/-- The bitmask at the front of header bytes, as `Reader.Init` parses it. -/
def wireFlag (bytes : List Byte) : Nat :=
  match readUvarint bytes with
  | some (v, _) => v % 2 ^ 64
  | none => 0

/-- The number of set bits of a 64-bit bitmask. -/
def bitCount (flag : Nat) : Nat := (List.range 64).countP (fun i => flag.testBit i)

/-- The number of fields of `p` that differ from their default: the named
fields in the order of the data model, then the occupied extension slots. -/
def nonDefaultCount (p : Packet) : Nat :=
  (if p.ack then 1 else 0) + (if p.status ≠ 0 then 1 else 0) +
  (if p.contentType ≠ 0 then 1 else 0) + (if p.command ≠ 0 then 1 else 0) +
  (if p.seqID ≠ [] then 1 else 0) + (if p.msgID ≠ 0 then 1 else 0) +
  (if p.name ≠ [] then 1 else 0) + (if p.method ≠ [] then 1 else 0) +
  (if p.service ≠ [] then 1 else 0) + (if hasHeads p then 1 else 0) +
  (List.range HFExtraMax).countP (fun k => decide (Extra p k ≠ []))

/-- Every named field of `p` is at its default. -/
def NamedDefault (p : Packet) : Prop :=
  p.ack = false ∧ p.status = 0 ∧ p.contentType = 0 ∧ p.command = 0 ∧ p.seqID = [] ∧
  p.msgID = 0 ∧ p.name = [] ∧ p.method = [] ∧ p.service = [] ∧ hasHeads p = false

instance (p : Packet) : Decidable (NamedDefault p) := by
  unfold NamedDefault
  infer_instance

/-! ## Example packets and codecs -/

/-- A packet with every kind of named field set: `ack`, the three unsigned
fields, `msgID`, the four strings (`seqID = "abc"`, `name = "n"`,
`method = "Call"`, `service = "Echo"`) and two heads. -/
def samplePacket : Packet :=
  { New with
    ack := true, status := 300, contentType := 2, command := 1, msgID := 513,
    seqID := [97, 98, 99], name := [110], method := [67, 97, 108, 108],
    service := [69, 99, 104, 111], heads := some [([107], [118]), ([120], [])] }

/-- A codec for the examples: `Encode` appends the two bytes `{}` and
succeeds, `Decode` reads the buffer to its end and succeeds. -/
def sampleCodec : Codec where
  Encode := fun buf _ => (buf.Append [123, 125], none)
  Decode := fun buf _ => (buf.map (fun b => b.skip b.remaining.length), none)

/-- A codec for the examples whose `Decode` fails with error code 1 and
leaves the buffer alone. -/
def failingCodec : Codec where
  Encode := fun buf _ => (buf, some (Error.codec 1))
  Decode := fun buf _ => (buf, some (Error.codec 1))

/-- The sample packet with a raw body of three bytes, a codec attached and a
buffer that already holds two bytes, one of them read. -/
def rawBodyPacket : Packet :=
  { samplePacket with
    body := some (Any.buf ⟨[1, 2, 3], 0⟩), codec := some sampleCodec,
    buffer := some ⟨[9, 9], 1⟩ }

/-- The sample packet with a typed body, no codec and a buffer that already
holds two bytes, one of them read. -/
def noCodecPacket : Packet :=
  { samplePacket with body := some (Any.val 5), buffer := some ⟨[9, 9], 1⟩ }

/-- A packet whose body is its own buffer, which holds two bytes. -/
def sharedBufferPacket : Packet :=
  { New with buffer := some ⟨[9, 9], 0⟩, body := some Any.ownBuffer }

/-- The packet of the example in the testable properties: `ack = true`,
`status = 0`, `service = "Echo"`, `method = "Call"`, `seqID = "abc123"`, no
extension slot, no body. -/
def echoPacket : Packet :=
  { New with
    ack := true, service := [69, 99, 104, 111], method := [67, 97, 108, 108],
    seqID := [97, 98, 99, 49, 50, 51] }

/-- A packet whose serialized fields are all at their default, while it
holds a buffer with two bytes, two empty extension slots, an allocated but
empty head map and local-only values. -/
def idlePacket : Packet :=
  { New with
    extras := [[], []], heads := some [], buffer := some ⟨[9, 9], 1⟩, ttl := 5, retry := 2 }

/-! ## The remaining accessors of `Packet` -/

/-- `Packet.IsAck`. -/
def Packet.IsAck (p : Packet) : Bool := p.ack

/-- `Packet.Status`. -/
def Packet.Status (p : Packet) : Nat := p.status

/-- `Packet.ContentType`. -/
def Packet.ContentType (p : Packet) : Nat := p.contentType

/-- `Packet.Command`. -/
def Packet.Command (p : Packet) : Nat := p.command

/-- `Packet.SeqID`. -/
def Packet.SeqID (p : Packet) : GoString := p.seqID

/-- `Packet.MsgID`. -/
def Packet.MsgID (p : Packet) : Nat := p.msgID

/-- `Packet.Name`. -/
def Packet.Name (p : Packet) : GoString := p.name

/-- `Packet.Method`. -/
def Packet.Method (p : Packet) : GoString := p.method

/-- `Packet.Service`. -/
def Packet.Service (p : Packet) : GoString := p.service

/-- `Packet.Body`. -/
def Packet.Body (p : Packet) : Option Any := p.body

/-- `Packet.Codec`. -/
def Packet.Codec (p : Packet) : Option Codec := p.codec

/-- `Packet.Buffer`. -/
def Packet.Buffer (p : Packet) : Option Buffer := p.buffer

/-- `Packet.Internal`. -/
def Packet.Internal (p : Packet) : Option Any := p.internal

/-- `Packet.TTL`. -/
def Packet.TTL (p : Packet) : Int := p.ttl

/-- `Packet.Retry`. -/
def Packet.Retry (p : Packet) : Int := p.retry

/-- `Packet.Priority`. -/
def Packet.Priority (p : Packet) : Int := p.priority

/-- `Packet.CallInfo`. -/
def Packet.CallInfo (p : Packet) : Option Nat := p.callInfo

/-- A packet in use: every field holds a value other than its default. -/
def busyPacket : Packet :=
  { samplePacket with
    extras := [[101], [], [102]], body := some (Any.val 3), codec := some sampleCodec,
    buffer := some ⟨[1, 2, 3], 2⟩, internal := some (Any.val 4), ttl := 30, retry := 2,
    priority := 1, callInfo := some 8 }

/-! ## What a header read may change -/

/-- The packet `p1` differs from `p` at most in named fields whose bit is set
in the bitmask `flag`: every named field whose bit is unset, the extension
slots, the body, the codec and the fields that are not serialized are equal. -/
structure HeadFrame (flag : Nat) (p p1 : Packet) : Prop where
  ack : flag.testBit HFAck = false → p1.ack = p.ack
  status : flag.testBit HFStatus = false → p1.status = p.status
  contentType : flag.testBit HFContentType = false → p1.contentType = p.contentType
  command : flag.testBit HFCommand = false → p1.command = p.command
  seqID : flag.testBit HFSeqID = false → p1.seqID = p.seqID
  msgID : flag.testBit HFMsgID = false → p1.msgID = p.msgID
  name : flag.testBit HFName = false → p1.name = p.name
  method : flag.testBit HFMethod = false → p1.method = p.method
  service : flag.testBit HFService = false → p1.service = p.service
  heads : flag.testBit HFHeadMap = false → p1.heads = p.heads
  extras : p1.extras = p.extras
  body : p1.body = p.body
  codec : p1.codec = p.codec
  internal : p1.internal = p.internal
  ttl : p1.ttl = p.ttl
  retry : p1.retry = p.retry
  priority : p1.priority = p.priority
  callInfo : p1.callInfo = p.callInfo

/-- The packets `p` and `p1` agree on every field but the extension slots. -/
def SameButExtras (p p1 : Packet) : Prop :=
  ∃ extras : List GoString, p1 = { p with extras := extras }

/-- A packet that was used for an earlier message and not reset: it still
holds status 404 and seqID `"o"`, and it is handed a buffer whose header is
the zero bitmask. -/
def stalePacket : Packet :=
  { New with status := 404, seqID := [111], buffer := some ⟨[0], 0⟩ }

/-- The packet `stalePacket`, handed the buffer that `Encode` writes for
`echoPacket`, whose `status` is at its default while its `seqID` is set. -/
def reusedPacket : Packet :=
  { stalePacket with buffer := (Encode echoPacket).p.buffer }

/-- A fresh packet with a buffer whose header announces `status` and `seqID`:
the status is the byte 5, the string is cut off after one of its three
bytes. -/
def truncatedPacket : Packet :=
  { New with buffer := some ⟨[18, 5, 3, 97], 0⟩ }

/-- The packet `p` with other values in the five fields that are not
serialized. -/
def withLocal (p : Packet) (internal : Option Any) (ttl retry priority : Int)
    (callInfo : Option Nat) : Packet :=
  { p with
    internal := internal, ttl := ttl, retry := retry, priority := priority,
    callInfo := callInfo }

/-- The sample packet with a typed body and a codec attached. -/
def codecBodyPacket : Packet :=
  { samplePacket with body := some (Any.val 1), codec := some sampleCodec }

/-- A packet without body, with a codec, that holds the buffer written by
`Encode` for `codecBodyPacket`. -/
def receivingPacket : Packet :=
  { New with codec := some sampleCodec, buffer := (Encode codecBodyPacket).p.buffer }

/-- The named fields are read in the order `ack` (0), `status` (1),
`contentType` (2), `command` (3), `seqID` (4), `msgID` (5), `name` (6),
`method` (7), `service` (8), `heads` (9). In `p1` every named field from
position `k` of this order on has the value it has in `p`. -/
structure UnchangedFrom (k : Nat) (p p1 : Packet) : Prop where
  status : k ≤ 1 → p1.status = p.status
  contentType : k ≤ 2 → p1.contentType = p.contentType
  command : k ≤ 3 → p1.command = p.command
  seqID : k ≤ 4 → p1.seqID = p.seqID
  msgID : k ≤ 5 → p1.msgID = p.msgID
  name : k ≤ 6 → p1.name = p.name
  method : k ≤ 7 → p1.method = p.method
  service : k ≤ 8 → p1.service = p.service
  heads : k ≤ 9 → p1.heads = p.heads

/-- A fresh packet with an empty buffer: the bitmask cannot be read. -/
def emptyBufferPacket : Packet :=
  { New with buffer := some ⟨[], 0⟩ }

/-- A fresh packet with a buffer whose bitmask has the bit of extension slot
0 set, followed by one empty string and nothing else: the second string of
the extension loop cannot be read. -/
def slotErrorPacket : Packet :=
  { New with buffer := some ⟨[128, 8, 0], 0⟩ }

end packet

namespace httpx

/-!
# Response wrapper of the HTTP server (`util/httpx/zresponse.go`)

Conventions of the embedding

* The functions registered with `Before` and `After` are closures that the
  response only calls; a function is identified by a number, and calling it
  is an event of the trace. A call may panic, depending on the events so
  far; a registered function does not call back into the response.
* The underlying `http.ResponseWriter` of the Go standard library is an
  interface value that may be nil; calling a method on a nil writer panics.
  Its methods may panic themselves (`net/http` does on an invalid status
  code). What its `Write` returns is given by `respond`, as a function of the
  events so far and of the bytes.
* The trace lists the calls of registered functions and of the underlying
  writer, oldest first; a call that panics is listed too.
* A call of the response either returns or panics; in both cases the
  response and the trace are the ones the caller finds afterwards (after
  `recover` in the second case).
-/

/-- An observable call made by the response. -/
inductive Event where
  /-- A function registered with `Before` is called. -/
  | before (fn : Nat)
  /-- A function registered with `After` is called. -/
  | after (fn : Nat)
  /-- `r.Writer.WriteHeader(code)`. -/
  | writeHeader (code : Int)
  /-- `r.Writer.Write(b)`. -/
  | write (b : List Nat)
  deriving DecidableEq, Repr

/-- A registered `func()`: its identity, and whether a call of it panics,
given the events so far. -/
structure Fn where
  id : Nat
  panics : List Event → Bool

/-- The underlying `http.ResponseWriter`, given the events so far: what
`Write(b)` returns (the number of bytes written and the error, `none` for
nil), whether `WriteHeader(code)` panics, and whether `Write(b)` panics. -/
structure ResponseWriter where
  respond : List Event → List Nat → Int × Option Nat
  headerPanics : List Event → Int → Bool
  writePanics : List Event → List Nat → Bool

/-- `http.StatusOK`. -/
def StatusOK : Int := 200

/-- The value of an `int64` after an addition that may wrap around. -/
def wrapInt64 (x : Int) : Int := (x + 2 ^ 63) % 2 ^ 64 - 2 ^ 63

/-- The type `Response`; `server` is a pointer, kept as a reference. -/
structure Response where
  server : Option Nat
  before : List Fn
  after : List Fn
  Writer : Option ResponseWriter
  Status : Int
  Size : Int
  Committed : Bool

/-- How a call of the response ends: it returns, with a value, or it panics.
Both carry the response and the trace as the call leaves them. -/
inductive Result (α : Type) where
  | ret (r : Response) (t : List Event) (a : α)
  | panic (r : Response) (t : List Event)

/-- The response as the call leaves it. -/
def Result.response {α : Type} : Result α → Response
  | Result.ret r _ _ => r
  | Result.panic r _ => r

/-- The trace as the call leaves it. -/
def Result.trace {α : Type} : Result α → List Event
  | Result.ret _ t _ => t
  | Result.panic _ t => t

/-- `NewResponse`: `&Response{Writer: w, server: e}`. -/
def NewResponse (w : Option ResponseWriter) (e : Option Nat) : Response :=
  { server := e, before := [], after := [], Writer := w, Status := 0, Size := 0,
    Committed := false }

/-- `Response.Before`. -/
def Before (r : Response) (fn : Fn) : Response := { r with before := r.before ++ [fn] }

/-- `Response.After`. -/
def After (r : Response) (fn : Fn) : Response := { r with after := r.after ++ [fn] }

/-- The loop `for _, fn := range fns { fn() }`: the trace after it and whether
a function panicked, which ends the loop. `mk` makes the event of a call. -/
def callAll (mk : Nat → Event) : List Fn → List Event → List Event × Bool
  | [], t => (t, false)
  | f :: fs, t =>
    if f.panics t then (t ++ [mk f.id], true) else callAll mk fs (t ++ [mk f.id])

/-- `Response.WriteHeader`. `Committed` is set after the underlying
`WriteHeader` has returned. -/
def WriteHeader (r : Response) (t : List Event) (code : Int) : Result Unit :=
  if r.Committed then
    Result.ret r t ()
  else
    let called := callAll Event.before r.before t
    if called.2 then Result.panic r called.1
    else
      let t := called.1
      let r := { r with Status := code }
      match r.Writer with
      | none => Result.panic r t
      | some w =>
        if w.headerPanics t code then Result.panic r (t ++ [Event.writeHeader code])
        else Result.ret { r with Committed := true } (t ++ [Event.writeHeader code]) ()

/-- `Response.Write`; the value returned is `(n, err)`. -/
def Write (r : Response) (t : List Event) (b : List Nat) : Result (Int × Option Nat) :=
  let committed :=
    if !r.Committed then
      let r := if r.Status = 0 then { r with Status := StatusOK } else r
      WriteHeader r t r.Status
    else Result.ret r t ()
  match committed with
  | Result.panic r t => Result.panic r t
  | Result.ret r t _ =>
    match r.Writer with
    | none => Result.panic r t
    | some w =>
      if w.writePanics t b then Result.panic r (t ++ [Event.write b])
      else
        let res := w.respond t b
        let r := { r with Size := wrapInt64 (r.Size + res.1) }
        let called := callAll Event.after r.after (t ++ [Event.write b])
        if called.2 then Result.panic r called.1 else Result.ret r called.1 (res.1, res.2)

/-- `Response.reset`. -/
def reset (r : Response) (w : Option ResponseWriter) : Response :=
  { r with before := [], after := [], Writer := w, Size := 0, Status := StatusOK,
           Committed := false }

/-! ## Sequences of calls -/

/-- A registration made on a response before anything is written. -/
inductive Reg where
  | before (fn : Fn)
  | after (fn : Fn)

/-- One registration applied to the response. -/
def applyReg (r : Response) : Reg → Response
  | Reg.before fn => Before r fn
  | Reg.after fn => After r fn

/-- The response that `NewResponse(w, e)` creates, after the registrations
`regs` made in this order. -/
def registered (w : Option ResponseWriter) (e : Option Nat) (regs : List Reg) : Response :=
  regs.foldl applyReg (NewResponse w e)

/-- The functions that the registrations `regs` pass to `Before`, in order. -/
def beforeOf : List Reg → List Fn
  | [] => []
  | Reg.before fn :: regs => fn :: beforeOf regs
  | Reg.after _ :: regs => beforeOf regs

/-- A call that can commit the response. -/
inductive Op where
  | writeHeader (code : Int)
  | write (b : List Nat)
  deriving DecidableEq, Repr

/-- The calls `ops` made one after the other on the response; the caller
recovers from a panic and goes on with the next call. The result is the
response and the trace after the last call. -/
def run (r : Response) (t : List Event) : List Op → Response × List Event
  | [] => (r, t)
  | Op.writeHeader code :: ops =>
    run (WriteHeader r t code).response (WriteHeader r t code).trace ops
  | Op.write b :: ops =>
    run (Write r t b).response (Write r t b).trace ops

/-- The status code that the call `op` commits on the uncommitted response
`r`: the explicit code of `WriteHeader`, and for `Write` the status already
set, or 200 when none is set. -/
def commitCode (r : Response) : Op → Int
  | Op.writeHeader code => code
  | Op.write _ => if r.Status = 0 then StatusOK else r.Status

/-- The codes of the calls of the underlying `WriteHeader` in a trace. -/
def headerCodes : List Event → List Int
  | [] => []
  | Event.writeHeader code :: t => code :: headerCodes t
  | _ :: t => headerCodes t

/-- The functions registered with `Before` that were called in a trace. -/
def beforeCalls : List Event → List Nat
  | [] => []
  | Event.before fn :: t => fn :: beforeCalls t
  | _ :: t => beforeCalls t

/-! ## Example writers and functions -/

/-- A function for the examples that returns whenever it is called. -/
def quietFn (id : Nat) : Fn := ⟨id, fun _ => false⟩

/-- A writer for the examples: it reports every byte as written and never
panics. -/
def echoWriter : ResponseWriter where
  respond := fun _ b => (b.length, none)
  headerPanics := fun _ _ => false
  writePanics := fun _ _ => false

/-- A writer for the examples that, as the writer of `net/http` does, panics
in `WriteHeader` on a status code below 100 or above 999. -/
def strictWriter : ResponseWriter where
  respond := fun _ b => (b.length, none)
  headerPanics := fun _ code => decide (code < 100 ∨ 999 < code)
  writePanics := fun _ _ => false

/-- The response of `r := NewResponse(w, nil); r.Status = 404`, with the
writer `echoWriter`. -/
def presetResponse : Response :=
  { NewResponse (some echoWriter) none with Status := 404 }

/-- A new response on the writer `strictWriter` with one before-function,
number 7. -/
def strictResponse : Response :=
  registered (some strictWriter) none [Reg.before (quietFn 7)]

end httpx

namespace watcher

/-!
# Watcher of the local registry (`registry/local/watcher.go`)

Conventions of the embedding

* The calls of the callback `cb` are recorded in a trace of events, oldest
  first; the callback is not nil.
* A Go `map[string]bool` whose values are all `true` is the list of its keys;
  a map that may be nil is an `Option`.
* The mutex is left out: the handlers run one at a time.
* The clock that the expiry heap reads is an argument of the call.
-/

/-- The part of `registry.Service` that the watcher and the claims look at. -/
structure Service where
  Id : String
  Name : String
  deriving DecidableEq, Repr

/-- A `registry.Event` handed to the callback. -/
inductive Event where
  /-- `Event{Type: EventUpsert, Id: id, Service: srv}`. -/
  | upsert (id : String) (srv : Service)
  /-- `Event{Type: EventDelete, Id: id}`. -/
  | delete (id : String)
  deriving DecidableEq, Repr

/-- What the watcher uses from the rest of the repository, taken as
parameters: the constant `serviceTarget` of package `local` and the function
`registry.Unmarshal` (`none` when it returns an error). -/
structure Env where
  serviceTarget : String
  Unmarshal : String → Option Service

/-- The fields of `ssdp.AliveMessage` that `onAlive` reads; `MsgType` is the
field `Type`, `MaxAge` the result of the method `MaxAge()`. -/
structure AliveMessage where
  MsgType : String
  USN : String
  Server : String
  MaxAge : Int
  deriving DecidableEq, Repr

/-- The fields of `ssdp.ByeMessage` that `onBye` reads; `MsgType` is the
field `Type`. -/
structure ByeMessage where
  MsgType : String
  USN : String
  deriving DecidableEq, Repr

/-- An `entry` of the expiry heap. -/
structure entry where
  srv : Service
  expire : Int
  deriving DecidableEq, Repr

/-- Modelled from the spec: the type `eheap` of package `local` (its file is
missing, and the spec does not describe it); the model follows the calls made
in `watcher.go`: a heap ordered by `expire`, kept as a sorted list whose head
is `expired[0]`. -/
abbrev eheap := List entry

/-- Modelled from the spec: `eheap.Add` (missing): a new entry for `srv` that
expires `ttl` after `now`, placed by its expiry time. -/
def eheap.Add : eheap → Service → Int → Int → eheap
  | [], srv, ttl, now => [⟨srv, now + ttl⟩]
  | e :: es, srv, ttl, now =>
    if now + ttl < e.expire then ⟨srv, now + ttl⟩ :: e :: es
    else e :: eheap.Add es srv ttl now

/-- Modelled from the spec: `eheap.Remove` (missing): the entries of the
service `id` are taken out. -/
def eheap.Remove (h : eheap) (id : String) : eheap := h.filter (fun e => e.srv.Id != id)

/-- The type `_Watcher`, without the mutex and the callback. `monitor` tells
whether the monitor is set. -/
structure _Watcher where
  monitor : Bool
  Id : String
  observed : Option (List String)
  services : List String
  expired : eheap
  deriving DecidableEq, Repr

/-- The zero value `&_Watcher{}` of `newWatcher`. -/
def _Watcher.zero : _Watcher :=
  { monitor := false, Id := "", observed := none, services := [], expired := [] }

/-- `m[key] = true` on a map kept as the list of its keys. -/
def setTrue (m : List String) (key : String) : List String :=
  if key ∈ m then m else m ++ [key]

/-- `_Watcher.Start`; `monitorErr` is the error of `m.Start()` (`none` for
nil), `newId` the identifier that `xid.New()` yields. The result is the
watcher and the returned error. -/
def _Watcher.Start (w : _Watcher) (names : Option (List String)) (monitorErr : Option Nat)
    (newId : String) : _Watcher × Option Nat :=
  let w := { w with services := [] }
  let w := match names with
    | some ns => { w with observed := some (ns.foldl setTrue []) }
    | none => w
  match monitorErr with
  | some err => (w, some err)
  | none => ({ w with monitor := true, Id := newId }, none)

/-- `_Watcher.add`: the watcher after the call and the events handed to the
callback. -/
def _Watcher.add (env : Env) (w : _Watcher) (srvId : String) (data : String) (ttl : Int)
    (now : Int) : _Watcher × List Event :=
  match env.Unmarshal data with
  | some srv =>
    ({ w with expired := w.expired.Add srv ttl now, services := setTrue w.services srvId },
      [Event.upsert srvId srv])
  | none => (w, [])

/-- `_Watcher.onAlive`. -/
def _Watcher.onAlive (env : Env) (w : _Watcher) (m : AliveMessage) (now : Int) :
    _Watcher × List Event :=
  if m.MsgType ≠ env.serviceTarget then (w, [])
  else
    let serviceId := m.USN
    if serviceId ∉ w.services then
      let w := { w with services := setTrue w.services serviceId }
      w.add env serviceId m.Server m.MaxAge now
    else (w, [])

/-- `_Watcher.onBye`. -/
def _Watcher.onBye (env : Env) (w : _Watcher) (m : ByeMessage) : _Watcher × List Event :=
  if m.MsgType ≠ env.serviceTarget then (w, [])
  else
    let srvID := m.USN
    ({ w with expired := w.expired.Remove srvID,
              services := w.services.filter (fun k => k != srvID) },
      [Event.delete srvID])

/-- The loop of `_Watcher.tick` over the heap. -/
def tickLoop (now : Int) : eheap → List String → eheap × List String × List Event
  | [], services => ([], services, [])
  | e :: es, services =>
    if now < e.expire then (e :: es, services, [])
    else
      let res := tickLoop now es (services.filter (fun k => k != e.srv.Id))
      (res.1, res.2.1, Event.delete e.srv.Id :: res.2.2)

/-- `_Watcher.tick`. -/
def _Watcher.tick (w : _Watcher) (now : Int) : _Watcher × List Event :=
  let res := tickLoop now w.expired w.services
  ({ w with expired := res.1, services := res.2.1 }, res.2.2)

/-! ## Example environment -/

/-- An environment for the examples: the service type is `"svc"`; the data
`"A"` is the service named `"a"`, the data `"B"` the service named `"b"`, and
any other data fails to unmarshal. -/
def sampleEnv : Env where
  serviceTarget := "svc"
  Unmarshal := fun data =>
    if data = "A" then some ⟨"u1", "a"⟩
    else if data = "B" then some ⟨"u2", "b"⟩
    else none

/-- A watcher started with the list of names `["a"]`. -/
def startedWatcher : _Watcher := (_Watcher.zero.Start (some ["a"]) none "w1").1

end watcher

/-! # Theorems -/

namespace packet

/-! ## The wire encodings are read back -/

theorem readUvarint_putUvarintAux (fuel : Nat) :
    ∀ (n : Nat) (rest : List Byte), n ≤ fuel →
      readUvarint (putUvarintAux fuel n ++ rest) = some (n, (putUvarintAux fuel n).length) := by
  induction fuel with
  | zero =>
    intro n rest h
    have h0 : n = 0 := by omega
    subst h0
    simp [putUvarintAux, readUvarint]
  | succ fuel ih =>
    intro n rest h
    by_cases hn : n < 128
    · simp [putUvarintAux, readUvarint, hn]
    · have hle : n / 128 ≤ fuel := by omega
      have hb : ¬ (n % 128 + 128 < 128) := by omega
      simp only [putUvarintAux, hn, if_false, List.cons_append, readUvarint, hb, ih _ rest hle,
        List.length_cons]
      congr 2
      omega

theorem readUvarint_putUvarint (n : Nat) (rest : List Byte) :
    readUvarint (putUvarint n ++ rest) = some (n, (putUvarint n).length) :=
  readUvarint_putUvarintAux n n rest (Nat.le_refl n)

theorem readString_putString (s : GoString) (rest : List Byte) :
    readString (putString s ++ rest) = some (s, (putString s).length) := by
  simp only [readString, putString, List.append_assoc, readUvarint_putUvarint, List.drop_left,
    List.length_append, List.take_left]
  simp

theorem readEntries_putEntries (m : List (GoString × GoString)) :
    ∀ rest : List Byte,
      readEntries m.length (putEntries m ++ rest) = some (m, (putEntries m).length) := by
  induction m with
  | nil => intro rest; simp [readEntries, putEntries]
  | cons e es ih =>
    intro rest
    simp only [List.length_cons, readEntries, putEntries, List.append_assoc, readString_putString,
      List.drop_left, List.length_append]
    have h : List.drop ((putString e.1).length + (putString e.2).length)
        (putString e.1 ++ (putString e.2 ++ (putEntries es ++ rest))) = putEntries es ++ rest := by
      rw [← List.append_assoc, ← List.length_append, List.drop_left]
    rw [h, ih rest]
    simp [Nat.add_assoc]

theorem mapSet_append_of_not_mem (m : List (GoString × GoString)) (key value : GoString)
    (h : key ∉ m.map Prod.fst) : mapSet m key value = m ++ [(key, value)] := by
  induction m with
  | nil => simp [mapSet]
  | cons e es ih =>
    simp only [List.map_cons, List.mem_cons, not_or] at h
    have hne : ¬ e.1 = key := fun h1 => h.1 h1.symm
    simp [mapSet, hne, ih h.2]

theorem foldl_mapSet_of_nodup (es : List (GoString × GoString)) :
    ∀ acc : List (GoString × GoString), ((acc ++ es).map Prod.fst).Nodup →
      es.foldl (fun m e => mapSet m e.1 e.2) acc = acc ++ es := by
  induction es with
  | nil => intro acc _; simp
  | cons e es ih =>
    intro acc h
    have hnot : e.1 ∉ acc.map Prod.fst := by
      intro hmem
      rw [List.map_append, List.map_cons] at h
      have := (List.nodup_append.mp h).2.2
      exact this hmem (List.mem_cons_self _ _)
    rw [List.foldl_cons, mapSet_append_of_not_mem acc e.1 e.2 hnot]
    have h2 : ((acc ++ [(e.1, e.2)] ++ es).map Prod.fst).Nodup := by
      simpa using h
    rw [ih _ h2]
    simp

theorem readMap_putMap (m : List (GoString × GoString)) (rest : List Byte)
    (h : (m.map Prod.fst).Nodup) :
    readMap (putMap m ++ rest) = some (m, (putMap m).length) := by
  simp only [readMap, putMap, List.append_assoc, readUvarint_putUvarint, List.drop_left,
    readEntries_putEntries, List.length_append]
  rw [foldl_mapSet_of_nodup m [] (by simpa using h)]
  simp

/-! ## Buffer and writer facts -/

theorem Buffer.remaining_skip (b : Buffer) (n : Nat) :
    (b.skip n).remaining = b.remaining.drop n := by
  simp [Buffer.remaining, Buffer.skip]

theorem Writer.WriteBool_data (w : Writer) (v : Bool) (mask : Nat) :
    (w.WriteBool v mask).data = w.data := by
  unfold Writer.WriteBool; split <;> rfl

theorem Writer.WriteUint_data (w : Writer) (v mask : Nat) :
    (w.WriteUint v mask).data = w.data ++ segUint v := by
  unfold Writer.WriteUint segUint; split <;> simp

theorem Writer.WriteString_data (w : Writer) (s : GoString) (mask : Nat) :
    (w.WriteString s mask).data = w.data ++ segString s := by
  unfold Writer.WriteString segString; split <;> simp

theorem Writer.WriteMap_data (w : Writer) (m : Option (List (GoString × GoString))) (mask : Nat) :
    (w.WriteMap m mask).data = w.data ++ segMap m := by
  unfold Writer.WriteMap segMap; split <;> simp

theorem Writer.WriteBool_testBit (w : Writer) (v : Bool) (mask j : Nat) :
    (w.WriteBool v mask).flag.testBit j = (w.flag.testBit j || (v && mask.testBit j)) := by
  unfold Writer.WriteBool; cases v <;> simp

theorem Writer.WriteUint_testBit (w : Writer) (v mask j : Nat) :
    (w.WriteUint v mask).flag.testBit j
      = (w.flag.testBit j || (decide (v ≠ 0) && mask.testBit j)) := by
  unfold Writer.WriteUint; by_cases h : v = 0 <;> simp [h]

theorem Writer.WriteString_testBit (w : Writer) (s : GoString) (mask j : Nat) :
    (w.WriteString s mask).flag.testBit j
      = (w.flag.testBit j || (decide (s ≠ []) && mask.testBit j)) := by
  unfold Writer.WriteString; by_cases h : s = [] <;> simp [h]

theorem Writer.WriteMap_testBit (w : Writer) (m : Option (List (GoString × GoString)))
    (mask j : Nat) :
    (w.WriteMap m mask).flag.testBit j
      = (w.flag.testBit j || (nonEmptyMap m && mask.testBit j)) := by
  unfold Writer.WriteMap nonEmptyMap; split <;> simp

theorem encodeExtras_data (l : List GoString) :
    ∀ (w : Writer) (i : Nat), (encodeExtras w i l).data = w.data ++ segExtras l := by
  induction l with
  | nil => intro w i; simp [encodeExtras, segExtras]
  | cons v vs ih =>
    intro w i
    simp [encodeExtras, segExtras, ih, Writer.WriteString_data]

theorem encodeExtras_testBit (l : List GoString) :
    ∀ (w : Writer) (i j : Nat), (encodeExtras w i l).flag.testBit j
      = (w.flag.testBit j ||
          decide (i + HFExtra ≤ j ∧ j < 64 ∧ l.getD (j - (i + HFExtra)) [] ≠ [])) := by
  induction l with
  | nil => intro w i j; simp [encodeExtras]
  | cons v vs ih =>
    intro w i j
    simp only [encodeExtras, ih, Writer.WriteString_testBit, Nat.one_shiftLeft,
      Nat.testBit_mod_two_pow, Nat.testBit_two_pow]
    rcases Nat.lt_trichotomy j (i + HFExtra) with h | h | h
    · have h1 : ¬ (i + HFExtra ≤ j) := by omega
      have h2 : ¬ (i + 1 + HFExtra ≤ j) := by omega
      have h3 : ¬ (i + HFExtra = j) := by omega
      simp [h1, h2, h3]
    · subst h
      have h2 : ¬ (i + 1 + HFExtra ≤ i + HFExtra) := by omega
      simp [h2, Bool.and_comm]
    · have h1 : i + HFExtra ≤ j := by omega
      have h2 : i + 1 + HFExtra ≤ j := by omega
      have h3 : ¬ (i + HFExtra = j) := by omega
      have h4 : j - (i + HFExtra) = (j - (i + 1 + HFExtra)) + 1 := by omega
      simp [h1, h2, h3, h4]

theorem encodeHead_data (p : Packet) :
    (encodeHead p).data = namedBytes p ++ segExtras p.extras := by
  simp [encodeHead, encodeExtras_data, Writer.WriteBool_data, Writer.WriteUint_data,
    Writer.WriteString_data, Writer.WriteMap_data, Writer.Init, namedBytes]

theorem encodeHead_testBit (p : Packet) (j : Nat) :
    (encodeHead p).flag.testBit j = expectedBit p j := by
  simp only [encodeHead, encodeExtras_testBit, Writer.WriteBool_testBit, Writer.WriteUint_testBit,
    Writer.WriteString_testBit, Writer.WriteMap_testBit, Writer.Init, Nat.zero_testBit,
    Nat.one_shiftLeft, Nat.testBit_two_pow, expectedBit, hasHeads, Nat.zero_add, Bool.false_or]

theorem encodeHead_flag_lt (p : Packet) : (encodeHead p).flag < 2 ^ 64 := by
  apply Nat.lt_pow_two_of_testBit
  intro j hj
  rw [encodeHead_testBit]
  have h : ∀ k, k < 10 → ¬ (k = j) := by intro k hk; omega
  have h64 : ¬ (j < 64) := by omega
  simp [expectedBit, HFAck, HFStatus, HFContentType, HFCommand, HFSeqID, HFMsgID, HFName,
    HFMethod, HFService, HFHeadMap, h, h64]

/-! ## Reader facts -/

theorem Reader.HasFlag_bit (r : Reader) (k : Nat) :
    r.HasFlag (1 <<< k) = r.flag.testBit k := by
  unfold Reader.HasFlag
  rw [Nat.one_shiftLeft]
  cases h : r.flag.testBit k with
  | false =>
    have h0 : r.flag &&& 2 ^ k = 0 := by
      apply Nat.eq_of_testBit_eq
      intro i
      rw [Nat.testBit_and, Nat.testBit_two_pow, Nat.zero_testBit]
      by_cases hk : k = i
      · subst hk; simp [h]
      · simp [hk]
    simp [h0]
  | true =>
    have h1 : (r.flag &&& 2 ^ k).testBit k = true := by
      rw [Nat.testBit_and, Nat.testBit_two_pow_self, h]; rfl
    have h2 : r.flag &&& 2 ^ k ≠ 0 := by
      intro h0
      rw [h0, Nat.zero_testBit] at h1
      exact Bool.noConfusion h1
    simp [h2]

theorem Reader.HasFlag_extraMask_false (r : Reader)
    (h : ∀ j, HFExtra ≤ j → j < HFMax → r.flag.testBit j = false) :
    r.HasFlag (HFExtraMask % 2 ^ 64) = false := by
  have hm : HFExtraMask % 2 ^ 64 = (2 ^ 7 - 1) <<< 10 := by decide
  have h0 : r.flag &&& (2 ^ 7 - 1) <<< 10 = 0 := by
    apply Nat.eq_of_testBit_eq
    intro i
    rw [Nat.testBit_and, Nat.testBit_shiftLeft, Nat.testBit_two_pow_sub_one, Nat.zero_testBit]
    by_cases h1 : 10 ≤ i ∧ i - 10 < 7
    · have := h i (by simp [HFExtra]; omega) (by simp [HFMax, HFExtra, HFExtraMax]; omega)
      simp [this]
    · have h2 : (decide (i ≥ 10) && decide (i - 10 < 7)) = false := by
        simpa using h1
      simp [h2]
  unfold Reader.HasFlag
  rw [hm, h0]
  rfl

theorem Reader.ReadBool_seg (r : Reader) (dest v : Bool) (mask : Nat)
    (hflag : r.HasFlag mask = v) :
    r.ReadBool dest mask = if v then true else dest := by
  simp [Reader.ReadBool, hflag]

theorem Reader.ReadUint_seg (r : Reader) (dest v mask : Nat) (rest : List Byte)
    (hrem : r.buff.remaining = segUint v ++ rest) (hflag : r.HasFlag mask = decide (v ≠ 0))
    (hv : v < 2 ^ 64) :
    ∃ r1 : Reader, r.ReadUint dest mask = .ok (r1, if v ≠ 0 then v else dest) ∧
      r1.flag = r.flag ∧ r1.buff.remaining = rest ∧ r1.buff.data = r.buff.data := by
  by_cases h : v = 0
  · subst h
    refine ⟨r, ?_, rfl, ?_, rfl⟩
    · simp [Reader.ReadUint, hflag]
    · simpa [segUint] using hrem
  · have hf : r.HasFlag mask = true := by simpa [h] using hflag
    have hr : r.buff.remaining = putUvarint v ++ rest := by simpa [segUint, h] using hrem
    refine ⟨⟨r.flag, r.buff.skip (putUvarint v).length⟩, ?_, rfl, ?_, rfl⟩
    · simp [Reader.ReadUint, hf, hr, readUvarint_putUvarint, h]
      omega
    · simp [Buffer.remaining_skip, hr]

theorem Reader.ReadUint16_seg (r : Reader) (dest v mask : Nat) (rest : List Byte)
    (hrem : r.buff.remaining = segUint v ++ rest) (hflag : r.HasFlag mask = decide (v ≠ 0))
    (hv : v < 2 ^ 16) :
    ∃ r1 : Reader, r.ReadUint16 dest mask = .ok (r1, if v ≠ 0 then v else dest) ∧
      r1.flag = r.flag ∧ r1.buff.remaining = rest ∧ r1.buff.data = r.buff.data := by
  by_cases h : v = 0
  · subst h
    refine ⟨r, ?_, rfl, ?_, rfl⟩
    · simp [Reader.ReadUint16, hflag]
    · simpa [segUint] using hrem
  · have hf : r.HasFlag mask = true := by simpa [h] using hflag
    have hr : r.buff.remaining = putUvarint v ++ rest := by simpa [segUint, h] using hrem
    refine ⟨⟨r.flag, r.buff.skip (putUvarint v).length⟩, ?_, rfl, ?_, rfl⟩
    · simp [Reader.ReadUint16, hf, hr, readUvarint_putUvarint, h]
      omega
    · simp [Buffer.remaining_skip, hr]

theorem Reader.ReadStringDirect_putString (r : Reader) (s : GoString) (rest : List Byte)
    (hrem : r.buff.remaining = putString s ++ rest) :
    ∃ r1 : Reader, r.ReadStringDirect = .ok (r1, s) ∧
      r1.flag = r.flag ∧ r1.buff.remaining = rest ∧ r1.buff.data = r.buff.data := by
  refine ⟨⟨r.flag, r.buff.skip (putString s).length⟩, ?_, rfl, ?_, rfl⟩
  · simp [Reader.ReadStringDirect, hrem, readString_putString]
  · simp [Buffer.remaining_skip, hrem]

theorem Reader.ReadString_seg (r : Reader) (dest s : GoString) (mask : Nat) (rest : List Byte)
    (hrem : r.buff.remaining = segString s ++ rest) (hflag : r.HasFlag mask = decide (s ≠ [])) :
    ∃ r1 : Reader, r.ReadString dest mask = .ok (r1, if s ≠ [] then s else dest) ∧
      r1.flag = r.flag ∧ r1.buff.remaining = rest ∧ r1.buff.data = r.buff.data := by
  by_cases h : s = []
  · subst h
    refine ⟨r, ?_, rfl, ?_, rfl⟩
    · simp [Reader.ReadString, hflag]
    · simpa [segString] using hrem
  · have hf : r.HasFlag mask = true := by simpa [h] using hflag
    have hr : r.buff.remaining = putString s ++ rest := by simpa [segString, h] using hrem
    obtain ⟨r1, e1, f1, h1, d1⟩ := Reader.ReadStringDirect_putString r s rest hr
    exact ⟨r1, by simp [Reader.ReadString, hf, e1, h], f1, h1, d1⟩

theorem Reader.ReadMap_seg (r : Reader) (dest m : Option (List (GoString × GoString)))
    (mask : Nat) (rest : List Byte)
    (hrem : r.buff.remaining = segMap m ++ rest)
    (hflag : r.HasFlag mask = nonEmptyMap m)
    (hm : ∀ l, m = some l → (l.map Prod.fst).Nodup) :
    ∃ r1 : Reader,
      r.ReadMap dest mask
        = .ok (r1, if nonEmptyMap m then m else dest) ∧
      r1.flag = r.flag ∧ r1.buff.remaining = rest ∧ r1.buff.data = r.buff.data := by
  match m, hrem, hflag, hm with
  | some (e :: es), hrem, hflag, hm =>
    have hr : r.buff.remaining = putMap (e :: es) ++ rest := by simpa [segMap] using hrem
    refine ⟨⟨r.flag, r.buff.skip (putMap (e :: es)).length⟩, ?_, rfl, ?_, rfl⟩
    · have hf : r.HasFlag mask = true := by simpa [nonEmptyMap] using hflag
      simp [Reader.ReadMap, hf, hr, readMap_putMap _ _ (hm _ rfl), nonEmptyMap]
    · simp [Buffer.remaining_skip, hr]
  | some [], hrem, hflag, _ =>
    refine ⟨r, ?_, rfl, ?_, rfl⟩
    · have hf : r.HasFlag mask = false := by simpa [nonEmptyMap] using hflag
      simp [Reader.ReadMap, hf, nonEmptyMap]
    · simpa [segMap] using hrem
  | none, hrem, hflag, _ =>
    refine ⟨r, ?_, rfl, ?_, rfl⟩
    · have hf : r.HasFlag mask = false := by simpa [nonEmptyMap] using hflag
      simp [Reader.ReadMap, hf, nonEmptyMap]
    · simpa [segMap] using hrem

/-! ## Reading back the named fields -/

theorem decodeHead_encoded (q x : Packet) (r : Reader) (rest : List Byte)
    (hx : x.WellTyped) (hf : r.flag = (encodeHead x).flag)
    (hr : r.buff.remaining = namedBytes x ++ rest) :
    ∃ r1 : Reader, decodeHead q r = (readNamed q x, r1, none) ∧
      r1.flag = r.flag ∧ r1.buff.remaining = rest ∧ r1.buff.data = r.buff.data := by
  have bit : ∀ (r0 : Reader) (k : Nat), r0.flag = r.flag →
      r0.HasFlag (1 <<< k) = expectedBit x k := by
    intro r0 k h0
    rw [Reader.HasFlag_bit, h0, hf, encodeHead_testBit]
  have b0 := Reader.ReadBool_seg r q.ack x.ack (1 <<< HFAck)
    (by rw [bit r _ rfl]; simp [expectedBit, HFAck, HFStatus, HFContentType, HFCommand, HFSeqID,
      HFMsgID, HFName, HFMethod, HFService, HFHeadMap, HFExtra])
  obtain ⟨r1, e1, f1, h1, d1⟩ := Reader.ReadUint_seg r q.status x.status (1 <<< HFStatus) _
    (by simpa [namedBytes] using hr)
    (by rw [bit r _ rfl]; simp [expectedBit, HFAck, HFStatus, HFContentType, HFCommand, HFSeqID,
      HFMsgID, HFName, HFMethod, HFService, HFHeadMap, HFExtra])
    hx.status_lt
  obtain ⟨r2, e2, f2, h2, d2⟩ := Reader.ReadUint_seg r1 q.contentType x.contentType
    (1 <<< HFContentType) _ h1
    (by rw [bit r1 _ f1]; simp [expectedBit, HFAck, HFStatus, HFContentType, HFCommand, HFSeqID,
      HFMsgID, HFName, HFMethod, HFService, HFHeadMap, HFExtra])
    hx.contentType_lt
  obtain ⟨r3, e3, f3, h3, d3⟩ := Reader.ReadUint_seg r2 q.command x.command
    (1 <<< HFCommand) _ h2
    (by rw [bit r2 _ (f2.trans f1)]; simp [expectedBit, HFAck, HFStatus, HFContentType,
      HFCommand, HFSeqID, HFMsgID, HFName, HFMethod, HFService, HFHeadMap, HFExtra])
    hx.command_lt
  obtain ⟨r4, e4, f4, h4, d4⟩ := Reader.ReadString_seg r3 q.seqID x.seqID
    (1 <<< HFSeqID) _ h3
    (by rw [bit r3 _ (f3.trans (f2.trans f1))]; simp [expectedBit, HFAck, HFStatus,
      HFContentType, HFCommand, HFSeqID, HFMsgID, HFName, HFMethod, HFService, HFHeadMap, HFExtra])
  have g4 : r4.flag = r.flag := f4.trans (f3.trans (f2.trans f1))
  obtain ⟨r5, e5, f5, h5, d5⟩ := Reader.ReadUint16_seg r4 q.msgID x.msgID
    (1 <<< HFMsgID) _ h4
    (by rw [bit r4 _ g4]; simp [expectedBit, HFAck, HFStatus,
      HFContentType, HFCommand, HFSeqID, HFMsgID, HFName, HFMethod, HFService, HFHeadMap, HFExtra])
    hx.msgID_lt
  have g5 : r5.flag = r.flag := f5.trans g4
  obtain ⟨r6, e6, f6, h6, d6⟩ := Reader.ReadString_seg r5 q.name x.name
    (1 <<< HFName) _ h5
    (by rw [bit r5 _ g5]; simp [expectedBit, HFAck, HFStatus,
      HFContentType, HFCommand, HFSeqID, HFMsgID, HFName, HFMethod, HFService, HFHeadMap, HFExtra])
  have g6 : r6.flag = r.flag := f6.trans g5
  obtain ⟨r7, e7, f7, h7, d7⟩ := Reader.ReadString_seg r6 q.method x.method
    (1 <<< HFMethod) _ h6
    (by rw [bit r6 _ g6]; simp [expectedBit, HFAck, HFStatus,
      HFContentType, HFCommand, HFSeqID, HFMsgID, HFName, HFMethod, HFService, HFHeadMap, HFExtra])
  have g7 : r7.flag = r.flag := f7.trans g6
  obtain ⟨r8, e8, f8, h8, d8⟩ := Reader.ReadString_seg r7 q.service x.service
    (1 <<< HFService) _ h7
    (by rw [bit r7 _ g7]; simp [expectedBit, HFAck, HFStatus,
      HFContentType, HFCommand, HFSeqID, HFMsgID, HFName, HFMethod, HFService, HFHeadMap, HFExtra])
  have g8 : r8.flag = r.flag := f8.trans g7
  obtain ⟨r9, e9, f9, h9, d9⟩ := Reader.ReadMap_seg r8 q.heads x.heads
    (1 <<< HFHeadMap) rest (by simpa using h8)
    (by rw [bit r8 _ g8]; simp [expectedBit, HFAck, HFStatus, hasHeads,
      HFContentType, HFCommand, HFSeqID, HFMsgID, HFName, HFMethod, HFService, HFHeadMap, HFExtra])
    hx.heads_nodup
  refine ⟨r9, ?_, f9.trans g8, h9, ?_⟩
  · unfold decodeHead
    simp only [b0, e1, e2, e3, e4, e5, e6, e7, e8, e9]
    rfl
  · rw [d9, d8, d7, d6, d5, d4, d3, d2, d1]

/-! ## Decoding a header without occupied extension slots -/

theorem getD_eq_nil_of_all_nil (l : List GoString) (h : ∀ s ∈ l, s = []) (k : Nat) :
    l.getD k [] = [] := by
  induction l generalizing k with
  | nil => simp
  | cons v vs ih =>
    cases k with
    | zero => simpa using h v (List.mem_cons_self _ _)
    | succ k => simpa using ih (fun s hs => h s (List.mem_cons_of_mem _ hs)) k

theorem segExtras_eq_nil_of_all_nil (l : List GoString) (h : ∀ s ∈ l, s = []) :
    segExtras l = [] := by
  induction l with
  | nil => rfl
  | cons v vs ih =>
    have hv : v = [] := h v (List.mem_cons_self _ _)
    simp [segExtras, segString, hv, ih (fun s hs => h s (List.mem_cons_of_mem _ hs))]

theorem Decode_header (q x : Packet) (b : Buffer) (rest : List Byte)
    (hx : x.WellTyped) (hext : ∀ s ∈ x.extras, s = [])
    (hq : q.buffer = some b) (hb : b.remaining = (encodeHead x).Flush ++ rest) :
    ∃ r1 : Reader, r1.buff.remaining = rest ∧ r1.buff.data = b.data ∧
      Decode q =
        (match q.body, q.codec with
          | some body, some c =>
            some ⟨{ readNamed q x with buffer := (c.Decode (some r1.buff) (some body)).1 },
              (c.Decode (some r1.buff) (some body)).2,
              [CodecCall.decode (some r1.buff) (some body)]⟩
          | _, _ => some ⟨{ readNamed q x with buffer := some r1.buff }, none, []⟩) := by
  have hinit : Reader.Init q.buffer
      = .ok ⟨(encodeHead x).flag, b.skip (putUvarint (encodeHead x).flag).length⟩ := by
    simp only [Reader.Init, hq, hb, Writer.Flush, List.append_assoc, readUvarint_putUvarint]
    rw [Nat.mod_eq_of_lt (encodeHead_flag_lt x)]
  have hrem : (b.skip (putUvarint (encodeHead x).flag).length).remaining
      = namedBytes x ++ rest := by
    rw [Buffer.remaining_skip, hb, Writer.Flush, List.append_assoc, List.drop_left,
      encodeHead_data, segExtras_eq_nil_of_all_nil _ hext, List.append_nil]
  obtain ⟨r1, e1, f1, h1, d1⟩ := decodeHead_encoded q x
    ⟨(encodeHead x).flag, b.skip (putUvarint (encodeHead x).flag).length⟩ rest hx rfl hrem
  have hflag : r1.HasFlag (HFExtraMask % 2 ^ 64) = false := by
    apply Reader.HasFlag_extraMask_false
    intro j h10 h17
    rw [f1]
    show (encodeHead x).flag.testBit j = false
    rw [encodeHead_testBit]
    have hk : ∀ k, k < 10 → ¬ (k = j) := by
      intro k hk; simp only [HFExtra] at h10; omega
    have hg := getD_eq_nil_of_all_nil x.extras hext (j - HFExtra)
    simp only [expectedBit, hg]
    simp [HFAck, HFStatus, HFContentType, HFCommand, HFSeqID, HFMsgID, HFName,
      HFMethod, HFService, HFHeadMap, hk]
  refine ⟨r1, h1, d1, ?_⟩
  unfold Decode
  simp only [hinit, e1, hflag]
  rfl

/-! ## Round trip of the named fields -/

theorem samplePacket_wellTyped : samplePacket.WellTyped where
  contentType_lt := by decide
  command_lt := by decide
  status_lt := by decide
  msgID_lt := by decide
  heads_nodup := by
    intro m h
    have hm : m = [([107], [118]), ([120], [])] := by
      simp only [samplePacket, New, Option.some.injEq] at h
      exact h.symm
    subst hm
    decide

/-- C1: for a packet `x` with well-typed named fields of arbitrary value, no
occupied extension slot and no body, `Encode` from an empty (or absent)
buffer succeeds, and `Decode` on a fresh packet holding the resulting buffer
succeeds and gives every named field the value it has in `x`; a non-empty
head map is reproduced exactly, an empty one leaves the head map absent. -/
theorem decode_encode_named_fields (x : Packet) (hx : x.WellTyped)
    (hbuf : ∀ b, x.buffer = some b → b = Buffer.New)
    (hext : ∀ s ∈ x.extras, s = []) (hbody : x.body = none) :
    (Encode x).err = none ∧
    ∃ r : Ret, Decode { New with buffer := (Encode x).p.buffer } = some r ∧ r.err = none ∧
      r.p.ack = x.ack ∧ r.p.status = x.status ∧ r.p.contentType = x.contentType ∧
      r.p.command = x.command ∧ r.p.seqID = x.seqID ∧ r.p.msgID = x.msgID ∧
      r.p.name = x.name ∧ r.p.method = x.method ∧ r.p.service = x.service ∧
      (∀ key, Head r.p key = Head x key) ∧
      (hasHeads x = true → r.p.heads = x.heads) ∧
      (hasHeads x = false → r.p.heads = none) := by
  have henc : Encode x = ⟨{ x with buffer := some ⟨(encodeHead x).Flush, 0⟩ }, none, []⟩ := by
    have hb0 : (match x.buffer with | some b => b | none => Buffer.New) = Buffer.New := by
      cases hb : x.buffer with
      | none => rfl
      | some b => exact hbuf b hb
    simp only [Encode, hbody, hb0]
    simp [Buffer.Append, Buffer.New]
  obtain ⟨r1, _, _, hdec⟩ := Decode_header
    { New with buffer := (Encode x).p.buffer } x ⟨(encodeHead x).Flush, 0⟩ [] hx hext
    (by rw [henc]) (by simp [Buffer.remaining])
  have hdec1 : Decode { New with buffer := (Encode x).p.buffer }
      = some ⟨{ readNamed { New with buffer := (Encode x).p.buffer } x with
          buffer := some r1.buff }, none, []⟩ := by
    rw [hdec]; rfl
  refine ⟨by rw [henc], _, hdec1, rfl, ?_, ?_, ?_, ?_, ?_, ?_, ?_, ?_, ?_, ?_, ?_, ?_⟩
  · simp only [readNamed, New]; cases x.ack <;> rfl
  · simp only [readNamed, New]; by_cases h : x.status = 0 <;> simp [h]
  · simp only [readNamed, New]; by_cases h : x.contentType = 0 <;> simp [h]
  · simp only [readNamed, New]; by_cases h : x.command = 0 <;> simp [h]
  · simp only [readNamed, New]; by_cases h : x.seqID = [] <;> simp [h]
  · simp only [readNamed, New]; by_cases h : x.msgID = 0 <;> simp [h]
  · simp only [readNamed, New]; by_cases h : x.name = [] <;> simp [h]
  · simp only [readNamed, New]; by_cases h : x.method = [] <;> simp [h]
  · simp only [readNamed, New]; by_cases h : x.service = [] <;> simp [h]
  · intro key
    cases hh : x.heads with
    | none => simp [readNamed, New, Head, hasHeads, nonEmptyMap, hh]
    | some m =>
      cases m with
      | nil => simp [readNamed, New, Head, hasHeads, nonEmptyMap, hh, mapGet]
      | cons e es => simp [readNamed, New, Head, hasHeads, nonEmptyMap, hh]
  · intro h; simp [readNamed, h]
  · intro h; simp [readNamed, New, h]

/-- Witness of C1 at `samplePacket`, in which every named field differs from
its default. -/
theorem decode_encode_named_fields_witness :
    samplePacket.WellTyped ∧ samplePacket.extras = [] ∧ samplePacket.body = none ∧
    (Encode samplePacket).err = none ∧
    ∃ r : Ret, Decode { New with buffer := (Encode samplePacket).p.buffer } = some r ∧
      r.err = none ∧
      r.p.ack = true ∧ r.p.status = 300 ∧ r.p.contentType = 2 ∧
      r.p.command = 1 ∧ r.p.seqID = [97, 98, 99] ∧ r.p.msgID = 513 ∧
      r.p.name = [110] ∧ r.p.method = [67, 97, 108, 108] ∧ r.p.service = [69, 99, 104, 111] ∧
      (∀ key, Head r.p key = Head samplePacket key) ∧
      (hasHeads samplePacket = true → r.p.heads = samplePacket.heads) ∧
      (hasHeads samplePacket = false → r.p.heads = none) :=
  ⟨samplePacket_wellTyped, rfl, rfl,
    decode_encode_named_fields samplePacket samplePacket_wellTyped
      (by intro b h; exact absurd h (by simp [samplePacket, New]))
      (by intro s h; exact absurd h (by simp [samplePacket, New])) rfl⟩

/-! ## Extension slots -/

/-- C2 (code evaluated at the failing input): on a fresh packet
`SetExtra(6, "v")` panics: the grown slice is never stored, and
`p.extras[6] = value` indexes the empty slice. -/
theorem SetExtra_slot6_on_New_panics : SetExtra New 6 [118] = none := rfl

/-- C3: for every packet, every key `>= 7` and every value, `SetExtra` returns
the out-of-range error and the packet is exactly as before the call. -/
theorem SetExtra_out_of_range (p : Packet) (key : Nat) (value : GoString)
    (h : HFExtraMax ≤ key) : SetExtra p key value = some (p, some Error.badExtraKey) := by
  simp [SetExtra, h]

/-- Witness of C3: key `7` on a packet that holds two extension slots. -/
theorem SetExtra_out_of_range_witness :
    HFExtraMax ≤ 7 ∧
    SetExtra { New with extras := [[97], [98]] } 7 [99]
      = some ({ New with extras := [[97], [98]] }, some Error.badExtraKey) :=
  ⟨by decide, SetExtra_out_of_range { New with extras := [[97], [98]] } 7 [99] (by decide)⟩

/-- C4 (code evaluated at the failing input): a packet whose slot 0 holds
`"a"` is encoded without error, and `Decode` of that buffer on a fresh packet
panics: the loop reads `"a"` and calls `SetExtra(0, "a")`, which indexes the
empty slice of the fresh packet. -/
theorem Decode_extension_slot_panics :
    (Encode { New with extras := [[97]] }).err = none ∧
    Decode { New with buffer := (Encode { New with extras := [[97]] }).p.buffer } = none :=
  ⟨rfl, rfl⟩

/-- The loop of `Decode` reads a string for every slot index, whether the
bit of the slot is set or not: with slot 1 alone occupied in the encoded
packet, a decoding packet that already has seven slots receives the string
in slot 0, and the next read fails on the end of the buffer. -/
theorem Decode_extension_slot_misplaced :
    ∃ r : Ret,
      Decode { New with extras := List.replicate 7 [],
                        buffer := (Encode { New with extras := [[], [98]] }).p.buffer } = some r ∧
      r.err = some Error.malformed ∧ Extra r.p 0 = [98] ∧ Extra r.p 1 = [] :=
  ⟨_, rfl, rfl, rfl, rfl⟩

/-! ## Body handling of `Encode` -/

/-- C5 (counterexample): the body is the packet's own buffer, which holds
the bytes `9 9`. `Encode` appends the header byte `0` to it and then the
buffer to itself: the buffer ends as `9 9 0 9 9 0`, not as its previous
contents, the header and the bytes of the body (`9 9 0 9 9`). -/
theorem Encode_own_buffer_body_doubles :
    sharedBufferPacket.body = some Any.ownBuffer ∧
    bufferData sharedBufferPacket.buffer = [9, 9] ∧
    (Encode sharedBufferPacket).err = none ∧
    bufferData (Encode sharedBufferPacket).p.buffer = [9, 9, 0, 9, 9, 0] ∧
    bufferData (Encode sharedBufferPacket).p.buffer
      ≠ bufferData sharedBufferPacket.buffer ++ (encodeHead sharedBufferPacket).Flush
          ++ bufferData sharedBufferPacket.buffer := by
  decide

/-- C5 (amended): for every packet whose body is a raw byte buffer `b` other
than the packet's own buffer, with or without a codec, `Encode` returns no
error, makes no call to the codec, and the buffer of the packet then holds
its previous contents, the header bytes and the bytes of `b`, in this order,
the read cursor staying where it was; when the body is the packet's own
buffer, `Encode` returns no error and calls no codec either, and the buffer
holds its previous contents and the header bytes twice. -/
theorem Encode_raw_body (p : Packet) :
    (∀ b : Buffer, p.body = some (Any.buf b) →
      (Encode p).err = none ∧ (Encode p).calls = [] ∧
      bufferData (Encode p).p.buffer = bufferData p.buffer ++ (encodeHead p).Flush ++ b.data ∧
      (∀ b0, p.buffer = some b0 → ∃ b1, (Encode p).p.buffer = some b1 ∧ b1.pos = b0.pos)) ∧
    (p.body = some Any.ownBuffer →
      (Encode p).err = none ∧ (Encode p).calls = [] ∧
      bufferData (Encode p).p.buffer
        = bufferData p.buffer ++ (encodeHead p).Flush
            ++ (bufferData p.buffer ++ (encodeHead p).Flush)) := by
  constructor
  · intro b hbody
    cases hb : p.buffer <;>
      simp [Encode, hbody, hb, bufferData, Buffer.Append, Buffer.AppendBuffer, Buffer.New]
  · intro hbody
    cases hb : p.buffer <;>
      simp [Encode, hbody, hb, bufferData, Buffer.Append, Buffer.AppendBuffer, Buffer.New]

/-- Witness of C5 (amended): a raw body of three bytes on a packet that has a
codec attached and a buffer that already holds two bytes; and the packet
whose body is its own buffer. -/
theorem Encode_raw_body_witness :
    rawBodyPacket.body = some (Any.buf ⟨[1, 2, 3], 0⟩) ∧
    (Encode rawBodyPacket).err = none ∧ (Encode rawBodyPacket).calls = [] ∧
    bufferData (Encode rawBodyPacket).p.buffer
      = [9, 9] ++ (encodeHead rawBodyPacket).Flush ++ [1, 2, 3] ∧
    sharedBufferPacket.body = some Any.ownBuffer ∧
    bufferData (Encode sharedBufferPacket).p.buffer
      = [9, 9] ++ (encodeHead sharedBufferPacket).Flush
          ++ ([9, 9] ++ (encodeHead sharedBufferPacket).Flush) :=
  ⟨rfl, ((Encode_raw_body rawBodyPacket).1 ⟨[1, 2, 3], 0⟩ rfl).1,
    ((Encode_raw_body rawBodyPacket).1 ⟨[1, 2, 3], 0⟩ rfl).2.1,
    ((Encode_raw_body rawBodyPacket).1 ⟨[1, 2, 3], 0⟩ rfl).2.2.1,
    rfl, ((Encode_raw_body sharedBufferPacket).2 rfl).2.2⟩

/-- C6: for every packet whose body is present, is not a raw byte buffer, and
which has no codec, `Encode` returns the error "packet no codec" without
calling anything, and the buffer then holds its previous contents followed by
the header bytes and nothing else: it is the buffer that the successful
`Encode` of the same packet without body leaves. -/
theorem Encode_missing_codec (p : Packet) (ref : Nat) (hbody : p.body = some (Any.val ref))
    (hcodec : p.codec = none) :
    (Encode p).err = some Error.packetNoCodec ∧ (Encode p).calls = [] ∧
    bufferData (Encode p).p.buffer = bufferData p.buffer ++ (encodeHead p).Flush ∧
    (Encode { p with body := none }).err = none ∧
    (Encode { p with body := none }).p.buffer = (Encode p).p.buffer := by
  cases hb : p.buffer <;>
    simp [Encode, hbody, hcodec, hb, bufferData, Buffer.Append, Buffer.New, encodeHead]

/-- Witness of C6: a typed body on a packet without codec, with a buffer that
already holds two bytes. -/
theorem Encode_missing_codec_witness :
    noCodecPacket.body = some (Any.val 5) ∧ noCodecPacket.codec = none ∧
    (Encode noCodecPacket).err = some Error.packetNoCodec ∧
    bufferData (Encode noCodecPacket).p.buffer
      = [9, 9] ++ (encodeHead noCodecPacket).Flush :=
  ⟨rfl, rfl, (Encode_missing_codec noCodecPacket 5 rfl rfl).1,
    (Encode_missing_codec noCodecPacket 5 rfl rfl).2.2.1⟩

/-! ## `DecodeBody` -/

/-- C7: without a codec `DecodeBody(target)` returns the error "no codec",
calls nothing and leaves the packet, its body included, as it was; with a
codec it calls the codec's `Decode` exactly once, on the buffer of the packet
and `target`, returns the codec's result unchanged, and the body is `target`
after a success and unchanged after a failure. -/
theorem DecodeBody_contract (p : Packet) (target : Option Any) :
    (p.codec = none → DecodeBody p target = ⟨p, some Error.noCodec, []⟩) ∧
    (∀ c, p.codec = some c →
      (DecodeBody p target).calls = [CodecCall.decode p.buffer target] ∧
      (DecodeBody p target).err = (c.Decode p.buffer target).2 ∧
      ((c.Decode p.buffer target).2 = none → (DecodeBody p target).p.body = target) ∧
      ((c.Decode p.buffer target).2 ≠ none → (DecodeBody p target).p.body = p.body)) := by
  constructor
  · intro h; simp [DecodeBody, h]
  · intro c h
    cases he : (c.Decode p.buffer target).2 <;> simp [DecodeBody, h, he]

/-- Witness of C7: no codec, a codec that succeeds and a codec that fails, on
a packet whose body is set beforehand. -/
theorem DecodeBody_contract_witness :
    (DecodeBody { New with body := some (Any.val 1) } (some (Any.val 2))).err
      = some Error.noCodec ∧
    (DecodeBody { New with body := some (Any.val 1), codec := some sampleCodec }
      (some (Any.val 2))).p.body = some (Any.val 2) ∧
    (DecodeBody { New with body := some (Any.val 1), codec := some failingCodec }
      (some (Any.val 2))).p.body = some (Any.val 1) :=
  ⟨congrArg Ret.err ((DecodeBody_contract { New with body := some (Any.val 1) }
      (some (Any.val 2))).1 rfl),
    ((DecodeBody_contract { New with body := some (Any.val 1), codec := some sampleCodec }
      (some (Any.val 2))).2 sampleCodec rfl).2.2.1 rfl,
    ((DecodeBody_contract { New with body := some (Any.val 1), codec := some failingCodec }
      (some (Any.val 2))).2 failingCodec rfl).2.2.2 (by decide)⟩

/-! ## Presence bits and compactness -/

theorem Encode_buffer_data (p : Packet) :
    ∃ tail : List Byte,
      bufferData (Encode p).p.buffer = bufferData p.buffer ++ ((encodeHead p).Flush ++ tail) := by
  cases hb : p.buffer <;> cases hbody : p.body with
  | none =>
    exact ⟨[], by simp [Encode, hbody, hb, bufferData, Buffer.Append, Buffer.New]⟩
  | some a =>
    cases a with
    | buf b =>
      exact ⟨b.data, by
        simp [Encode, hbody, hb, bufferData, Buffer.Append, Buffer.AppendBuffer, Buffer.New]⟩
    | ownBuffer =>
      exact ⟨bufferData p.buffer ++ (encodeHead p).Flush, by
        simp [Encode, hbody, hb, bufferData, Buffer.Append, Buffer.AppendBuffer, Buffer.New]⟩
    | val ref =>
      cases hc : p.codec with
      | none =>
        exact ⟨[], by simp [Encode, hbody, hb, hc, bufferData, Buffer.Append, Buffer.New]⟩
      | some c =>
        cases he : (c.Encode Buffer.New (some (Any.val ref))).2 with
        | some err =>
          simp only [Buffer.New] at he
          exact ⟨[], by simp [Encode, hbody, hb, hc, he, bufferData, Buffer.Append, Buffer.New]⟩
        | none =>
          simp only [Buffer.New] at he
          exact ⟨(c.Encode Buffer.New (some (Any.val ref))).1.data, by
            simp [Encode, hbody, hb, hc, he, bufferData, Buffer.Append, Buffer.AppendBuffer,
              Buffer.New]⟩

theorem wireFlag_writtenBytes (p : Packet) :
    wireFlag (writtenBytes p) = (encodeHead p).flag := by
  obtain ⟨tail, h⟩ := Encode_buffer_data p
  rw [writtenBytes, h, List.drop_left, wireFlag, Writer.Flush, List.append_assoc,
    readUvarint_putUvarint]
  exact Nat.mod_eq_of_lt (encodeHead_flag_lt p)

theorem Extra_eq_getD (p : Packet) (k : Nat) : Extra p k = p.extras.getD k [] := by
  unfold Extra
  split
  · rfl
  · rw [List.getD_eq_default]; omega

theorem expectedBit_of_ge (p : Packet) (hlen : p.extras.length ≤ HFExtraMax) (j : Nat)
    (hj : HFMax ≤ j) : expectedBit p j = false := by
  simp only [HFMax, HFExtra, HFExtraMax] at hj hlen
  have hk : ∀ k, k < 10 → ¬ (k = j) := by intro k hk; omega
  have hg : p.extras.getD (j - HFExtra) [] = [] := by
    rw [List.getD_eq_default]; simp only [HFExtra]; omega
  simp only [expectedBit, hg]
  simp [HFAck, HFStatus, HFContentType, HFCommand, HFSeqID, HFMsgID, HFName,
    HFMethod, HFService, HFHeadMap, hk]

theorem countP_expectedBit (p : Packet) (hlen : p.extras.length ≤ HFExtraMax) :
    (List.range 64).countP (expectedBit p) = nonDefaultCount p := by
  have hsplit : List.range 64 = List.range 17 ++ (List.range 47).map (fun k => 17 + k) := by
    decide
  have hhi : ((List.range 47).map (fun k => 17 + k)).countP (expectedBit p) = 0 := by
    rw [List.countP_eq_zero]
    intro j hj
    obtain ⟨k, _, rfl⟩ := List.mem_map.mp hj
    rw [expectedBit_of_ge p hlen (17 + k) (by simp [HFMax, HFExtra, HFExtraMax])]
    simp
  have hlo : List.range 17 = [0, 1, 2, 3, 4, 5, 6, 7, 8, 9, 10, 11, 12, 13, 14, 15, 16] := by
    decide
  have h7 : List.range HFExtraMax = [0, 1, 2, 3, 4, 5, 6] := by decide
  rw [hsplit, List.countP_append, hhi, hlo, nonDefaultCount, h7]
  simp only [List.countP_cons, List.countP_nil, expectedBit, Extra_eq_getD, HFAck, HFStatus,
    HFContentType, HFCommand, HFSeqID, HFMsgID, HFName, HFMethod, HFService, HFHeadMap, HFExtra]
  simp
  omega

/-- C9: in the header that `Encode` writes, the bit of every named field is
set exactly when the field differs from its default, the bit of extension
slot `k` is set exactly when slot `k` holds a non-empty string, no other bit
is set, and the number of set bits is the number of non-default fields. -/
theorem Encode_presence_bits (p : Packet) (hlen : p.extras.length ≤ HFExtraMax) :
    (wireFlag (writtenBytes p)).testBit HFAck = p.ack ∧
    (wireFlag (writtenBytes p)).testBit HFStatus = decide (p.status ≠ 0) ∧
    (wireFlag (writtenBytes p)).testBit HFContentType = decide (p.contentType ≠ 0) ∧
    (wireFlag (writtenBytes p)).testBit HFCommand = decide (p.command ≠ 0) ∧
    (wireFlag (writtenBytes p)).testBit HFSeqID = decide (p.seqID ≠ []) ∧
    (wireFlag (writtenBytes p)).testBit HFMsgID = decide (p.msgID ≠ 0) ∧
    (wireFlag (writtenBytes p)).testBit HFName = decide (p.name ≠ []) ∧
    (wireFlag (writtenBytes p)).testBit HFMethod = decide (p.method ≠ []) ∧
    (wireFlag (writtenBytes p)).testBit HFService = decide (p.service ≠ []) ∧
    (wireFlag (writtenBytes p)).testBit HFHeadMap = hasHeads p ∧
    (∀ k, k < HFExtraMax →
      (wireFlag (writtenBytes p)).testBit (HFExtra + k) = decide (Extra p k ≠ [])) ∧
    (∀ j, HFMax ≤ j → (wireFlag (writtenBytes p)).testBit j = false) ∧
    bitCount (wireFlag (writtenBytes p)) = nonDefaultCount p := by
  have hbit : ∀ j, (wireFlag (writtenBytes p)).testBit j = expectedBit p j := by
    intro j; rw [wireFlag_writtenBytes, encodeHead_testBit]
  refine ⟨?_, ?_, ?_, ?_, ?_, ?_, ?_, ?_, ?_, ?_, ?_, ?_, ?_⟩
  · rw [hbit]; simp [expectedBit, HFAck, HFStatus, HFContentType, HFCommand, HFSeqID, HFMsgID,
      HFName, HFMethod, HFService, HFHeadMap, HFExtra]
  · rw [hbit]; simp [expectedBit, HFAck, HFStatus, HFContentType, HFCommand, HFSeqID, HFMsgID,
      HFName, HFMethod, HFService, HFHeadMap, HFExtra]
  · rw [hbit]; simp [expectedBit, HFAck, HFStatus, HFContentType, HFCommand, HFSeqID, HFMsgID,
      HFName, HFMethod, HFService, HFHeadMap, HFExtra]
  · rw [hbit]; simp [expectedBit, HFAck, HFStatus, HFContentType, HFCommand, HFSeqID, HFMsgID,
      HFName, HFMethod, HFService, HFHeadMap, HFExtra]
  · rw [hbit]; simp [expectedBit, HFAck, HFStatus, HFContentType, HFCommand, HFSeqID, HFMsgID,
      HFName, HFMethod, HFService, HFHeadMap, HFExtra]
  · rw [hbit]; simp [expectedBit, HFAck, HFStatus, HFContentType, HFCommand, HFSeqID, HFMsgID,
      HFName, HFMethod, HFService, HFHeadMap, HFExtra]
  · rw [hbit]; simp [expectedBit, HFAck, HFStatus, HFContentType, HFCommand, HFSeqID, HFMsgID,
      HFName, HFMethod, HFService, HFHeadMap, HFExtra]
  · rw [hbit]; simp [expectedBit, HFAck, HFStatus, HFContentType, HFCommand, HFSeqID, HFMsgID,
      HFName, HFMethod, HFService, HFHeadMap, HFExtra]
  · rw [hbit]; simp [expectedBit, HFAck, HFStatus, HFContentType, HFCommand, HFSeqID, HFMsgID,
      HFName, HFMethod, HFService, HFHeadMap, HFExtra]
  · rw [hbit]; simp [expectedBit, HFAck, HFStatus, HFContentType, HFCommand, HFSeqID, HFMsgID,
      HFName, HFMethod, HFService, HFHeadMap, HFExtra]
  · intro k hk
    simp only [HFExtraMax] at hk
    rw [hbit, Extra_eq_getD]
    have hne : ∀ i, i < 10 → ¬ (i = HFExtra + k) := by
      intro i hi; simp only [HFExtra]; omega
    have h64 : HFExtra + k < 64 := by simp only [HFExtra]; omega
    simp only [expectedBit, Nat.add_sub_cancel_left]
    simp [HFAck, HFStatus, HFContentType, HFCommand, HFSeqID, HFMsgID, HFName, HFMethod,
      HFService, HFHeadMap, hne, h64]
  · intro j hj
    rw [hbit, expectedBit_of_ge p hlen j hj]
  · have hfun : (fun i => (wireFlag (writtenBytes p)).testBit i) = expectedBit p :=
      funext hbit
    rw [bitCount, hfun, countP_expectedBit p hlen]

/-- Witness of C9: the example packet with `ack`, `service`, `method` and
`seqID` set has exactly four set bits. -/
theorem Encode_presence_bits_witness :
    echoPacket.extras.length ≤ HFExtraMax ∧ bitCount (wireFlag (writtenBytes echoPacket)) = 4 :=
  ⟨by decide, (Encode_presence_bits echoPacket (by decide)).2.2.2.2.2.2.2.2.2.2.2.2.trans
    (by decide)⟩

theorem encodeExtras_of_all_nil (l : List GoString) (h : ∀ s ∈ l, s = []) :
    ∀ (w : Writer) (i : Nat), encodeExtras w i l = w := by
  induction l with
  | nil => intro w i; rfl
  | cons v vs ih =>
    intro w i
    have hv : v = [] := h v (List.mem_cons_self _ _)
    simp [encodeExtras, Writer.WriteString, hv, ih (fun s hs => h s (List.mem_cons_of_mem _ hs))]

/-- C10: for every packet whose named fields are all at their default, whose
extension slots are all empty and whose body is absent, `Encode` returns no
error, calls no codec, and adds to the buffer exactly the bytes of the
all-zero bitmask. -/
theorem Encode_all_default (p : Packet) (hnamed : NamedDefault p)
    (hext : ∀ s ∈ p.extras, s = []) (hbody : p.body = none) :
    (Encode p).err = none ∧ (Encode p).calls = [] ∧
    writtenBytes p = putUvarint 0 ∧
    bufferData (Encode p).p.buffer = bufferData p.buffer ++ putUvarint 0 := by
  obtain ⟨h1, h2, h3, h4, h5, h6, h7, h8, h9, h10⟩ := hnamed
  have hmap : ∀ (w : Writer) (mask : Nat), w.WriteMap p.heads mask = w := by
    intro w mask
    unfold hasHeads nonEmptyMap at h10
    unfold Writer.WriteMap
    split
    · rename_i heq; rw [heq] at h10; simp at h10
    · rfl
  have hhead : encodeHead p = Writer.Init := by
    simp [encodeHead, encodeExtras_of_all_nil _ hext, hmap, Writer.WriteBool, Writer.WriteUint,
      Writer.WriteString, h1, h2, h3, h4, h5, h6, h7, h8, h9]
  have hdata : bufferData (Encode p).p.buffer = bufferData p.buffer ++ putUvarint 0 := by
    cases hb : p.buffer <;>
      simp [Encode, hbody, hb, hhead, bufferData, Buffer.Append, Buffer.New, Writer.Flush,
        Writer.Init]
  refine ⟨by simp [Encode, hbody], by simp [Encode, hbody], ?_, hdata⟩
  rw [writtenBytes, hdata, List.drop_left]

/-- Witness of C10: a packet with empty slots, an empty head map, local-only
values and a buffer of two bytes gets the one byte of the zero bitmask. -/
theorem Encode_all_default_witness :
    NamedDefault idlePacket ∧ idlePacket.body = none ∧
    (Encode idlePacket).err = none ∧ writtenBytes idlePacket = putUvarint 0 ∧
    bufferData (Encode idlePacket).p.buffer = [9, 9, 0] :=
  ⟨by decide, rfl,
    (Encode_all_default idlePacket (by decide) (by decide) rfl).1,
    (Encode_all_default idlePacket (by decide) (by decide) rfl).2.2.1,
    (Encode_all_default idlePacket (by decide) (by decide) rfl).2.2.2⟩

/-! ## What holds next to the defects of the extension slots -/

/-- Within the slots that the packet already holds, `SetExtra` stores the
value, returns no error and leaves every other slot as it was. -/
theorem SetExtra_within_slots (p : Packet) (key : Nat) (value : GoString)
    (h7 : key < HFExtraMax) (hlen : key < p.extras.length) :
    ∃ p1 : Packet, SetExtra p key value = some (p1, none) ∧ Extra p1 key = value ∧
      ∀ j, j ≠ key → Extra p1 j = Extra p j := by
  refine ⟨{ p with extras := p.extras.set key value }, ?_, ?_, ?_⟩
  · have h : ¬ (HFExtraMax ≤ key) := by omega
    simp [SetExtra, h, hlen]
  · simp [Extra, hlen]
  · intro j hj
    simp only [Extra, List.length_set]
    split
    · simp only [List.getD_eq_getElem?_getD]
      rw [List.getElem?_set_ne (Ne.symm hj)]
    · rfl

/-- Beyond the slots that the packet holds, `SetExtra` panics for every key
of the valid range. -/
theorem SetExtra_beyond_slots (p : Packet) (key : Nat) (value : GoString)
    (h7 : key < HFExtraMax) (hlen : p.extras.length ≤ key) : SetExtra p key value = none := by
  have h : ¬ (HFExtraMax ≤ key) := by omega
  have h1 : ¬ (key < p.extras.length) := by omega
  simp [SetExtra, h, h1]

/-! ## Reset -/

/-- C13: after `Reset` every accessor returns its default: `IsAck` false;
`Status`, `ContentType`, `Command`, `MsgID`, `TTL`, `Retry`, `Priority`
zero; `SeqID`, `Name`, `Method`, `Service` empty; `Extra(k)` and `Head(k)`
empty for every `k`; `Body`, `Codec`, `Buffer`, `Internal`, `CallInfo`
absent. -/
theorem Reset_zeroes_everything (p : Packet) :
    (Reset p).IsAck = false ∧ (Reset p).Status = 0 ∧ (Reset p).ContentType = 0 ∧
    (Reset p).Command = 0 ∧ (Reset p).MsgID = 0 ∧ (Reset p).TTL = 0 ∧ (Reset p).Retry = 0 ∧
    (Reset p).Priority = 0 ∧ (Reset p).SeqID = [] ∧ (Reset p).Name = [] ∧
    (Reset p).Method = [] ∧ (Reset p).Service = [] ∧
    (∀ k, Extra (Reset p) k = []) ∧ (∀ k, Head (Reset p) k = []) ∧
    (Reset p).Body = none ∧ (Reset p).Codec = none ∧ (Reset p).Buffer = none ∧
    (Reset p).Internal = none ∧ (Reset p).CallInfo = none := by
  refine ⟨rfl, rfl, rfl, rfl, rfl, rfl, rfl, rfl, rfl, rfl, rfl, rfl, ?_, ?_, rfl, rfl, rfl,
    rfl, rfl⟩
  · intro k; simp [Extra, Reset, New]
  · intro k; rfl

/-- C14: `Reset` followed by `Encode` returns what `Encode` returns on a
packet fresh from `New`, with the same calls and the same buffer, which
holds the one byte of the zero bitmask. -/
theorem Encode_Reset_eq_Encode_New (p : Packet) :
    (Encode (Reset p)).err = (Encode New).err ∧
    (Encode (Reset p)).calls = (Encode New).calls ∧
    (Encode (Reset p)).p.buffer = (Encode New).p.buffer ∧
    (Encode (Reset p)).err = none ∧
    bufferData (Encode (Reset p)).p.buffer = putUvarint 0 :=
  ⟨rfl, rfl, rfl, rfl, rfl⟩

/-! ## Head map -/

theorem mapGet_mapSet_self (m : List (GoString × GoString)) (key value : GoString) :
    mapGet (mapSet m key value) key = value := by
  induction m with
  | nil => simp [mapSet, mapGet]
  | cons e es ih =>
    by_cases h : e.1 = key
    · simp [mapSet, mapGet, h]
    · have hb : (e.1 == key) = false := by simpa using h
      simp only [mapSet, h, if_false]
      simp only [mapGet, List.find?_cons, hb] at ih ⊢
      exact ih

theorem mapGet_mapSet_other (m : List (GoString × GoString)) (key value other : GoString)
    (hne : other ≠ key) : mapGet (mapSet m key value) other = mapGet m other := by
  induction m with
  | nil =>
    have hb : (key == other) = false := by simpa using (Ne.symm hne)
    simp [mapSet, mapGet, hb]
  | cons e es ih =>
    by_cases h : e.1 = key
    · have hb : (key == other) = false := by simpa using (Ne.symm hne)
      have hb2 : (e.1 == other) = false := by rw [h]; exact hb
      simp [mapSet, mapGet, h, hb, List.find?_cons]
    · simp only [mapSet, h, if_false]
      simp only [mapGet, List.find?_cons] at ih ⊢
      cases hc : (e.1 == other) with
      | true => rfl
      | false => exact ih

/-- C16: reading a key from an absent head map gives the empty string; after
`SetHead(k, v)` on any packet, absent map or not, `Head(k)` is `v` and
`Head` of every other key is as before. -/
theorem Head_SetHead (p : Packet) (key value : GoString) :
    (∀ k, Head { p with heads := none } k = []) ∧
    Head (SetHead p key value) key = value ∧
    (∀ k, k ≠ key → Head (SetHead p key value) k = Head p k) := by
  refine ⟨fun _ => rfl, ?_, ?_⟩
  · simp only [Head, SetHead]
    exact mapGet_mapSet_self _ _ _
  · intro k hk
    cases hh : p.heads with
    | none =>
      simp only [Head, SetHead, hh]
      rw [mapGet_mapSet_other _ _ _ _ hk]
      rfl
    | some m =>
      simp only [Head, SetHead, hh]
      exact mapGet_mapSet_other _ _ _ _ hk

/-- Witness of C16: on a fresh packet, whose head map is absent, setting key
`"k"` makes it readable and leaves key `"x"` empty. -/
theorem Head_SetHead_witness :
    New.heads = none ∧ Head New [107] = [] ∧
    Head (SetHead New [107] [118]) [107] = [118] ∧
    (([120] : GoString) ≠ [107] → Head (SetHead New [107] [118]) [120] = Head New [120]) :=
  ⟨rfl, (Head_SetHead New [107] [118]).1 [107], (Head_SetHead New [107] [118]).2.1,
    (Head_SetHead New [107] [118]).2.2 [120]⟩

/-! ## What `Decode` may change -/

theorem Reader.ReadUint_ok {r r1 : Reader} {dest mask v : Nat}
    (h : r.ReadUint dest mask = .ok (r1, v)) :
    r1.flag = r.flag ∧ (r.HasFlag mask = false → v = dest) := by
  unfold Reader.ReadUint at h
  split at h
  · rename_i hf
    split at h
    · exact Except.noConfusion h
    · simp only [Except.ok.injEq, Prod.mk.injEq] at h
      exact ⟨by rw [← h.1], fun hc => by rw [hf] at hc; exact Bool.noConfusion hc⟩
  · simp only [Except.ok.injEq, Prod.mk.injEq] at h
    exact ⟨by rw [h.1], fun _ => h.2.symm⟩

theorem Reader.ReadUint16_ok {r r1 : Reader} {dest mask v : Nat}
    (h : r.ReadUint16 dest mask = .ok (r1, v)) :
    r1.flag = r.flag ∧ (r.HasFlag mask = false → v = dest) := by
  unfold Reader.ReadUint16 at h
  split at h
  · rename_i hf
    split at h
    · exact Except.noConfusion h
    · simp only [Except.ok.injEq, Prod.mk.injEq] at h
      exact ⟨by rw [← h.1], fun hc => by rw [hf] at hc; exact Bool.noConfusion hc⟩
  · simp only [Except.ok.injEq, Prod.mk.injEq] at h
    exact ⟨by rw [h.1], fun _ => h.2.symm⟩

theorem Reader.ReadStringDirect_ok {r r1 : Reader} {s : GoString}
    (h : r.ReadStringDirect = .ok (r1, s)) : r1.flag = r.flag := by
  unfold Reader.ReadStringDirect at h
  split at h
  · exact Except.noConfusion h
  · simp only [Except.ok.injEq, Prod.mk.injEq] at h
    rw [← h.1]

theorem Reader.ReadString_ok {r r1 : Reader} {dest s : GoString} {mask : Nat}
    (h : r.ReadString dest mask = .ok (r1, s)) :
    r1.flag = r.flag ∧ (r.HasFlag mask = false → s = dest) := by
  unfold Reader.ReadString at h
  split at h
  · rename_i hf
    exact ⟨Reader.ReadStringDirect_ok h, fun hc => by rw [hf] at hc; exact Bool.noConfusion hc⟩
  · simp only [Except.ok.injEq, Prod.mk.injEq] at h
    exact ⟨by rw [h.1], fun _ => h.2.symm⟩

theorem Reader.ReadMap_ok {r r1 : Reader} {dest m : Option (List (GoString × GoString))}
    {mask : Nat} (h : r.ReadMap dest mask = .ok (r1, m)) :
    r1.flag = r.flag ∧ (r.HasFlag mask = false → m = dest) := by
  unfold Reader.ReadMap at h
  split at h
  · rename_i hf
    split at h
    · exact Except.noConfusion h
    · simp only [Except.ok.injEq, Prod.mk.injEq] at h
      exact ⟨by rw [← h.1], fun hc => by rw [hf] at hc; exact Bool.noConfusion hc⟩
  · simp only [Except.ok.injEq, Prod.mk.injEq] at h
    exact ⟨by rw [h.1], fun _ => h.2.symm⟩

theorem Reader.ReadBool_unset (r : Reader) (dest : Bool) (mask : Nat)
    (h : r.HasFlag mask = false) : r.ReadBool dest mask = dest := by
  simp [Reader.ReadBool, h]

theorem HeadFrame_refl (flag : Nat) (p : Packet) : HeadFrame flag p p :=
  ⟨fun _ => rfl, fun _ => rfl, fun _ => rfl, fun _ => rfl, fun _ => rfl, fun _ => rfl,
    fun _ => rfl, fun _ => rfl, fun _ => rfl, fun _ => rfl, rfl, rfl, rfl, rfl, rfl, rfl, rfl,
    rfl⟩

theorem decodeHead_frame (p : Packet) (r : Reader) :
    HeadFrame r.flag p (decodeHead p r).1 ∧ (decodeHead p r).2.1.flag = r.flag := by
  have hb : r.flag.testBit HFAck = false → r.ReadBool p.ack (1 <<< HFAck) = p.ack := by
    intro h; exact Reader.ReadBool_unset r _ _ (by rw [Reader.HasFlag_bit]; exact h)
  have g0 : r.flag = r.flag := rfl
  unfold decodeHead
  simp only []
  split
  · exact ⟨⟨hb, fun _ => rfl, fun _ => rfl, fun _ => rfl, fun _ => rfl, fun _ => rfl,
      fun _ => rfl, fun _ => rfl, fun _ => rfl, fun _ => rfl, rfl, rfl, rfl, rfl, rfl, rfl, rfl,
      rfl⟩, g0⟩
  · rename_i r1 v1 h1
    have g1 : r1.flag = r.flag := (Reader.ReadUint_ok h1).1.trans g0
    have e1 : r.flag.testBit HFStatus = false → v1 = p.status := fun hbit =>
      (Reader.ReadUint_ok h1).2 (by rw [Reader.HasFlag_bit, g0]; exact hbit)
    split
    · exact ⟨⟨hb, e1, fun _ => rfl, fun _ => rfl, fun _ => rfl, fun _ => rfl, fun _ => rfl,
        fun _ => rfl, fun _ => rfl, fun _ => rfl, rfl, rfl, rfl, rfl, rfl, rfl, rfl, rfl⟩, g1⟩
    · rename_i r2 v2 h2
      have g2 : r2.flag = r.flag := (Reader.ReadUint_ok h2).1.trans g1
      have e2 : r.flag.testBit HFContentType = false → v2 = p.contentType := fun hbit =>
        (Reader.ReadUint_ok h2).2 (by rw [Reader.HasFlag_bit, g1]; exact hbit)
      split
      · exact ⟨⟨hb, e1, e2, fun _ => rfl, fun _ => rfl, fun _ => rfl, fun _ => rfl, fun _ => rfl,
          fun _ => rfl, fun _ => rfl, rfl, rfl, rfl, rfl, rfl, rfl, rfl, rfl⟩, g2⟩
      · rename_i r3 v3 h3
        have g3 : r3.flag = r.flag := (Reader.ReadUint_ok h3).1.trans g2
        have e3 : r.flag.testBit HFCommand = false → v3 = p.command := fun hbit =>
          (Reader.ReadUint_ok h3).2 (by rw [Reader.HasFlag_bit, g2]; exact hbit)
        split
        · exact ⟨⟨hb, e1, e2, e3, fun _ => rfl, fun _ => rfl, fun _ => rfl, fun _ => rfl,
            fun _ => rfl, fun _ => rfl, rfl, rfl, rfl, rfl, rfl, rfl, rfl, rfl⟩, g3⟩
        · rename_i r4 v4 h4
          have g4 : r4.flag = r.flag := (Reader.ReadString_ok h4).1.trans g3
          have e4 : r.flag.testBit HFSeqID = false → v4 = p.seqID := fun hbit =>
            (Reader.ReadString_ok h4).2 (by rw [Reader.HasFlag_bit, g3]; exact hbit)
          split
          · exact ⟨⟨hb, e1, e2, e3, e4, fun _ => rfl, fun _ => rfl, fun _ => rfl, fun _ => rfl,
              fun _ => rfl, rfl, rfl, rfl, rfl, rfl, rfl, rfl, rfl⟩, g4⟩
          · rename_i r5 v5 h5
            have g5 : r5.flag = r.flag := (Reader.ReadUint16_ok h5).1.trans g4
            have e5 : r.flag.testBit HFMsgID = false → v5 = p.msgID := fun hbit =>
              (Reader.ReadUint16_ok h5).2 (by rw [Reader.HasFlag_bit, g4]; exact hbit)
            split
            · exact ⟨⟨hb, e1, e2, e3, e4, e5, fun _ => rfl, fun _ => rfl, fun _ => rfl,
                fun _ => rfl, rfl, rfl, rfl, rfl, rfl, rfl, rfl, rfl⟩, g5⟩
            · rename_i r6 v6 h6
              have g6 : r6.flag = r.flag := (Reader.ReadString_ok h6).1.trans g5
              have e6 : r.flag.testBit HFName = false → v6 = p.name := fun hbit =>
                (Reader.ReadString_ok h6).2 (by rw [Reader.HasFlag_bit, g5]; exact hbit)
              split
              · exact ⟨⟨hb, e1, e2, e3, e4, e5, e6, fun _ => rfl, fun _ => rfl, fun _ => rfl,
                  rfl, rfl, rfl, rfl, rfl, rfl, rfl, rfl⟩, g6⟩
              · rename_i r7 v7 h7
                have g7 : r7.flag = r.flag := (Reader.ReadString_ok h7).1.trans g6
                have e7 : r.flag.testBit HFMethod = false → v7 = p.method := fun hbit =>
                  (Reader.ReadString_ok h7).2 (by rw [Reader.HasFlag_bit, g6]; exact hbit)
                split
                · exact ⟨⟨hb, e1, e2, e3, e4, e5, e6, e7, fun _ => rfl, fun _ => rfl, rfl, rfl,
                    rfl, rfl, rfl, rfl, rfl, rfl⟩, g7⟩
                · rename_i r8 v8 h8
                  have g8 : r8.flag = r.flag := (Reader.ReadString_ok h8).1.trans g7
                  have e8 : r.flag.testBit HFService = false → v8 = p.service := fun hbit =>
                    (Reader.ReadString_ok h8).2 (by rw [Reader.HasFlag_bit, g7]; exact hbit)
                  split
                  · exact ⟨⟨hb, e1, e2, e3, e4, e5, e6, e7, e8, fun _ => rfl, rfl, rfl, rfl, rfl,
                      rfl, rfl, rfl, rfl⟩, g8⟩
                  · rename_i r9 v9 h9
                    have g9 : r9.flag = r.flag := (Reader.ReadMap_ok h9).1.trans g8
                    have e9 : r.flag.testBit HFHeadMap = false → v9 = p.heads := fun hbit =>
                      (Reader.ReadMap_ok h9).2 (by rw [Reader.HasFlag_bit, g8]; exact hbit)
                    exact ⟨⟨hb, e1, e2, e3, e4, e5, e6, e7, e8, e9, rfl, rfl, rfl, rfl, rfl, rfl,
                      rfl, rfl⟩, g9⟩

theorem SameButExtras_refl (p : Packet) : SameButExtras p p := ⟨p.extras, rfl⟩

theorem SetExtra_same {p p1 : Packet} {key : Nat} {value : GoString} {e : Option Error}
    (h : SetExtra p key value = some (p1, e)) : SameButExtras p p1 := by
  unfold SetExtra at h
  split at h
  · simp only [Option.some.injEq, Prod.mk.injEq] at h
    rw [← h.1]; exact SameButExtras_refl p
  · split at h
    · simp only [Option.some.injEq, Prod.mk.injEq] at h
      exact ⟨_, h.1.symm⟩
    · exact Option.noConfusion h

theorem decodeExtras_frame (n : Nat) :
    ∀ (i : Nat) (p : Packet) (r : Reader) (p1 : Packet) (r1 : Reader) (e : Option Error),
      decodeExtras n i p r = some (p1, r1, e) → SameButExtras p p1 := by
  induction n with
  | zero =>
    intro i p r p1 r1 e h
    simp only [decodeExtras, Option.some.injEq, Prod.mk.injEq] at h
    rw [← h.1]; exact SameButExtras_refl p
  | succ n ih =>
    intro i p r p1 r1 e h
    unfold decodeExtras at h
    split at h
    · simp only [Option.some.injEq, Prod.mk.injEq] at h
      rw [← h.1]; exact SameButExtras_refl p
    · split at h
      · exact ih _ _ _ _ _ _ h
      · simp only [] at h
        split at h
        · exact Option.noConfusion h
        · rename_i p2 e2 hset
          obtain ⟨ex2, rfl⟩ := SetExtra_same hset
          obtain ⟨ex1, h1⟩ := ih _ _ _ _ _ _ h
          exact ⟨ex1, h1⟩

theorem Reader.Init_flag {b : Option Buffer} {r0 : Reader} (h : Reader.Init b = .ok r0) :
    r0.flag = wireFlag (bufferRemaining b) := by
  unfold Reader.Init at h
  split at h
  · exact Except.noConfusion h
  · split at h
    · exact Except.noConfusion h
    · rename_i hread
      simp only [Except.ok.injEq] at h
      rw [← h]
      simp [wireFlag, bufferRemaining, hread]

theorem Decode_frame (q : Packet) (r : Ret) (h : Decode q = some r) :
    ∃ p1 : Packet, HeadFrame (wireFlag (bufferRemaining q.buffer)) q p1 ∧
      ∃ (extras : List GoString) (buffer : Option Buffer),
        r.p = { p1 with extras := extras, buffer := buffer } := by
  unfold Decode at h
  split at h
  · simp only [Option.some.injEq] at h
    rw [← h]
    exact ⟨q, HeadFrame_refl _ q, q.extras, q.buffer, rfl⟩
  · rename_i r0 hinit
    have hfr := (decodeHead_frame q r0).1
    rw [Reader.Init_flag hinit] at hfr
    split at h
    · rename_i p1 r1 err hhead
      rw [hhead] at hfr
      simp only [Option.some.injEq] at h
      rw [← h]
      exact ⟨p1, hfr, p1.extras, some r1.buff, rfl⟩
    · rename_i p1 r1 hhead
      rw [hhead] at hfr
      have hsame : ∀ p2 r2 e2,
          (if r1.HasFlag (HFExtraMask % 2 ^ 64) = true
            then decodeExtras (HFMax - HFExtra) HFExtra p1 r1 else some (p1, r1, none))
            = some (p2, r2, e2) → SameButExtras p1 p2 := by
        intro p2 r2 e2 hx
        split at hx
        · exact decodeExtras_frame _ _ _ _ _ _ _ hx
        · simp only [Option.some.injEq, Prod.mk.injEq] at hx
          rw [← hx.1]; exact SameButExtras_refl p1
      simp only [] at h
      split at h
      · exact Option.noConfusion h
      · rename_i p2 r2 err hx
        obtain ⟨ex, rfl⟩ := hsame _ _ _ hx
        simp only [Option.some.injEq] at h
        rw [← h]
        exact ⟨p1, hfr, ex, some r2.buff, rfl⟩
      · rename_i p2 r2 hx
        obtain ⟨ex, rfl⟩ := hsame _ _ _ hx
        split at h
        · simp only [Option.some.injEq] at h
          rw [← h]
          exact ⟨p1, hfr, ex, _, rfl⟩
        · simp only [Option.some.injEq] at h
          rw [← h]
          exact ⟨p1, hfr, ex, some r2.buff, rfl⟩

/-! ## Unset bits, header errors and local fields in `Decode` -/

theorem echoPacket_wellTyped : echoPacket.WellTyped where
  contentType_lt := by decide
  command_lt := by decide
  status_lt := by decide
  msgID_lt := by decide
  heads_nodup := by
    intro m h
    simp [echoPacket, New] at h

/-- C11 (counterexample): a reused packet that still holds status 404 decodes
a buffer whose bitmask has no bit set; `Decode` succeeds, and `status`, whose
bit is unset, is 404 and not its default 0. -/
theorem Decode_unset_bit_not_default :
    ∃ r : Ret, Decode stalePacket = some r ∧ r.err = none ∧
      (wireFlag (bufferRemaining stalePacket.buffer)).testBit HFStatus = false ∧
      r.p.Status = 404 ∧ r.p.Status ≠ 0 :=
  ⟨_, rfl, rfl, by decide, rfl, by decide⟩

/-- C11 (amended): for every packet state and every buffer, after `Decode`
returns each named field whose bit is unset in the bitmask of the buffer holds
the value it had before the call: its default on a fresh or reset packet, the
old value on a reused packet. On a buffer that starts with a header as
`Encode` writes it (for a well-typed packet without occupied extension slot)
`Decode` returns, and without error unless the codec reports one for the
body: no unset bit makes it fail. -/
theorem Decode_unset_bits_keep_value (q : Packet) :
    (∀ r : Ret, Decode q = some r →
      ((wireFlag (bufferRemaining q.buffer)).testBit HFAck = false → r.p.ack = q.ack) ∧
      ((wireFlag (bufferRemaining q.buffer)).testBit HFStatus = false
        → r.p.status = q.status) ∧
      ((wireFlag (bufferRemaining q.buffer)).testBit HFContentType = false
        → r.p.contentType = q.contentType) ∧
      ((wireFlag (bufferRemaining q.buffer)).testBit HFCommand = false
        → r.p.command = q.command) ∧
      ((wireFlag (bufferRemaining q.buffer)).testBit HFSeqID = false → r.p.seqID = q.seqID) ∧
      ((wireFlag (bufferRemaining q.buffer)).testBit HFMsgID = false → r.p.msgID = q.msgID) ∧
      ((wireFlag (bufferRemaining q.buffer)).testBit HFName = false → r.p.name = q.name) ∧
      ((wireFlag (bufferRemaining q.buffer)).testBit HFMethod = false
        → r.p.method = q.method) ∧
      ((wireFlag (bufferRemaining q.buffer)).testBit HFService = false
        → r.p.service = q.service) ∧
      ((wireFlag (bufferRemaining q.buffer)).testBit HFHeadMap = false
        → r.p.heads = q.heads)) ∧
    (∀ (x : Packet) (b : Buffer) (rest : List Byte),
      x.WellTyped → (∀ s ∈ x.extras, s = []) → q.buffer = some b →
      b.remaining = (encodeHead x).Flush ++ rest →
      ∃ r : Ret, Decode q = some r ∧
        (q.body = none ∨ q.codec = none → r.err = none ∧ r.calls = [])) := by
  constructor
  · intro r hr
    obtain ⟨p1, hfr, extras, buffer, hp⟩ := Decode_frame q r hr
    rw [hp]
    exact ⟨hfr.ack, hfr.status, hfr.contentType, hfr.command, hfr.seqID, hfr.msgID, hfr.name,
      hfr.method, hfr.service, hfr.heads⟩
  · intro x b rest hx hext hq hb
    obtain ⟨r1, _, _, hdec⟩ := Decode_header q x b rest hx hext hq hb
    rw [hdec]
    cases hbody : q.body with
    | none => exact ⟨_, rfl, fun _ => ⟨rfl, rfl⟩⟩
    | some body =>
      cases hcodec : q.codec with
      | none => exact ⟨_, rfl, fun _ => ⟨rfl, rfl⟩⟩
      | some c =>
        refine ⟨_, rfl, fun h => ?_⟩
        rcases h with h | h <;> simp at h

/-- Witness of C11 (amended): the reused packet decodes the header of
`echoPacket`; the call returns without error, the bit of `status` is unset
and the packet keeps its old status 404. -/
theorem Decode_unset_bits_keep_value_witness :
    echoPacket.WellTyped ∧ reusedPacket.buffer = some ⟨(encodeHead echoPacket).Flush, 0⟩ ∧
    ∃ r : Ret, Decode reusedPacket = some r ∧ r.err = none ∧ r.p.status = 404 :=
  ⟨echoPacket_wellTyped, rfl,
    match (Decode_unset_bits_keep_value reusedPacket).2 echoPacket
      ⟨(encodeHead echoPacket).Flush, 0⟩ [] echoPacket_wellTyped
      (by intro s h; exact absurd h (by simp [echoPacket, New])) rfl
      (by simp [Buffer.remaining]) with
    | ⟨r, hd, he⟩ =>
      ⟨r, hd, (he (Or.inl rfl)).1,
        ((Decode_unset_bits_keep_value reusedPacket).1 r hd).2.1 (by decide)⟩⟩

/-- C12 (counterexample): the header announces `status` and `seqID`, and the
string is cut off. `Decode` returns the header error without a codec call,
but `status` has already been overwritten: it is 5, while it was 0 before the
call. -/
theorem Decode_header_error_partial_state :
    ∃ r : Ret, Decode truncatedPacket = some r ∧ r.err = some Error.malformed ∧
      r.calls = [] ∧ r.p.status = 5 ∧ truncatedPacket.status = 0 :=
  ⟨_, rfl, rfl, rfl, rfl, rfl⟩

/-- C15: two packets that differ only in `internal`, `ttl`, `retry`,
`priority` and `callInfo` get the same result from `Encode`, with the same
calls to the codec, the same buffer and the same bytes added; and `Decode`,
whenever it returns, has not modified any of these five fields. -/
theorem local_fields_not_serialized (p : Packet) (internal : Option Any)
    (ttl retry priority : Int) (callInfo : Option Nat) :
    (Encode (withLocal p internal ttl retry priority callInfo)).err = (Encode p).err ∧
    (Encode (withLocal p internal ttl retry priority callInfo)).calls = (Encode p).calls ∧
    (Encode (withLocal p internal ttl retry priority callInfo)).p.buffer
      = (Encode p).p.buffer ∧
    writtenBytes (withLocal p internal ttl retry priority callInfo) = writtenBytes p ∧
    (∀ r : Ret, Decode p = some r →
      r.p.internal = p.internal ∧ r.p.ttl = p.ttl ∧ r.p.retry = p.retry ∧
      r.p.priority = p.priority ∧ r.p.callInfo = p.callInfo) := by
  have h3 : (Encode (withLocal p internal ttl retry priority callInfo)).err = (Encode p).err ∧
      (Encode (withLocal p internal ttl retry priority callInfo)).calls = (Encode p).calls ∧
      (Encode (withLocal p internal ttl retry priority callInfo)).p.buffer
        = (Encode p).p.buffer := by
    cases hbody : p.body with
    | none => simp [Encode, withLocal, encodeHead, hbody]
    | some a =>
      cases a with
      | buf b => simp [Encode, withLocal, encodeHead, hbody]
      | ownBuffer => simp [Encode, withLocal, encodeHead, hbody]
      | val ref =>
        cases hc : p.codec with
        | none => simp [Encode, withLocal, encodeHead, hbody, hc]
        | some c =>
          cases he : (c.Encode Buffer.New (some (Any.val ref))).2 <;>
            simp [Encode, withLocal, encodeHead, hbody, hc, he]
  refine ⟨h3.1, h3.2.1, h3.2.2, ?_, ?_⟩
  · simp only [writtenBytes, h3.2.2]
    rfl
  · intro r hr
    obtain ⟨p1, hfr, extras, buffer, hp⟩ := Decode_frame p r hr
    rw [hp]
    exact ⟨hfr.internal, hfr.ttl, hfr.retry, hfr.priority, hfr.callInfo⟩

/-- Witness of C15: the packet in use decodes the buffer written for the
sample packet; the call returns and the five local fields are as before. -/
theorem local_fields_not_serialized_witness :
    ∃ r : Ret, Decode { busyPacket with buffer := (Encode samplePacket).p.buffer } = some r ∧
      r.p.internal = some (Any.val 4) ∧ r.p.ttl = 30 ∧ r.p.retry = 2 ∧ r.p.priority = 1 ∧
      r.p.callInfo = some 8 :=
  ⟨_, rfl, (local_fields_not_serialized
    { busyPacket with buffer := (Encode samplePacket).p.buffer } none 0 0 0 none).2.2.2.2 _ rfl⟩

/-! ## Deferred decoding of the body -/

theorem SetExtra_keeps_no_slots {p p1 : Packet} {key : Nat} {value : GoString}
    {e : Option Error} (h0 : p.extras = []) (h : SetExtra p key value = some (p1, e)) :
    p1.extras = [] := by
  unfold SetExtra at h
  split at h
  · simp only [Option.some.injEq, Prod.mk.injEq] at h
    rw [← h.1]; exact h0
  · split at h
    · rename_i hlt
      rw [h0] at hlt
      exact absurd hlt (by simp)
    · exact Option.noConfusion h

theorem decodeExtras_keeps_no_slots (n : Nat) :
    ∀ (i : Nat) (p : Packet) (r : Reader) (p1 : Packet) (r1 : Reader) (e : Option Error),
      p.extras = [] → decodeExtras n i p r = some (p1, r1, e) → p1.extras = [] := by
  induction n with
  | zero =>
    intro i p r p1 r1 e h0 h
    simp only [decodeExtras, Option.some.injEq, Prod.mk.injEq] at h
    rw [← h.1]; exact h0
  | succ n ih =>
    intro i p r p1 r1 e h0 h
    unfold decodeExtras at h
    split at h
    · simp only [Option.some.injEq, Prod.mk.injEq] at h
      rw [← h.1]; exact h0
    · split at h
      · exact ih _ _ _ _ _ _ h0 h
      · simp only [] at h
        split at h
        · exact Option.noConfusion h
        · rename_i p2 e2 hset
          exact ih _ _ _ _ _ _ (SetExtra_keeps_no_slots h0 hset) h

/-- No operation gives a packet its first extension slot: `New` and `Reset`
leave the slice nil, and `SetExtra` and `Decode`, whenever they return, and
`Encode`, `DecodeBody` and `SetHead` keep a packet without slots without
slots. -/
theorem no_slots_is_kept :
    New.extras = [] ∧ (∀ p : Packet, (Reset p).extras = []) ∧
    (∀ (p p1 : Packet) (key : Nat) (value : GoString) (e : Option Error),
      p.extras = [] → SetExtra p key value = some (p1, e) → p1.extras = []) ∧
    (∀ (q : Packet) (r : Ret), q.extras = [] → Decode q = some r → r.p.extras = []) ∧
    (∀ p : Packet, (Encode p).p.extras = p.extras) ∧
    (∀ (p : Packet) (msg : Option Any), (DecodeBody p msg).p.extras = p.extras) ∧
    (∀ (p : Packet) (key value : GoString), (SetHead p key value).extras = p.extras) := by
  refine ⟨rfl, fun _ => rfl, fun p p1 key value e h0 h => SetExtra_keeps_no_slots h0 h, ?_, ?_,
    ?_, fun _ _ _ => rfl⟩
  · intro q r h0 h
    unfold Decode at h
    split at h
    · simp only [Option.some.injEq] at h
      rw [← h]; exact h0
    · rename_i r0 hinit
      have hfr := (decodeHead_frame q r0).1
      split at h
      · rename_i p1 r1 err hhead
        rw [hhead] at hfr
        simp only [Option.some.injEq] at h
        rw [← h]
        exact hfr.extras.trans h0
      · rename_i p1 r1 hhead
        rw [hhead] at hfr
        have h1 : p1.extras = [] := hfr.extras.trans h0
        have hsame : ∀ p2 r2 e2,
            (if r1.HasFlag (HFExtraMask % 2 ^ 64) = true
              then decodeExtras (HFMax - HFExtra) HFExtra p1 r1 else some (p1, r1, none))
              = some (p2, r2, e2) → p2.extras = [] := by
          intro p2 r2 e2 hx
          split at hx
          · exact decodeExtras_keeps_no_slots _ _ _ _ _ _ _ h1 hx
          · simp only [Option.some.injEq, Prod.mk.injEq] at hx
            rw [← hx.1]; exact h1
        simp only [] at h
        split at h
        · exact Option.noConfusion h
        · rename_i p2 r2 err hx
          simp only [Option.some.injEq] at h
          rw [← h]
          exact hsame p2 r2 _ hx
        · rename_i p2 r2 hx
          split at h
          · simp only [Option.some.injEq] at h
            rw [← h]
            exact hsame p2 r2 _ hx
          · simp only [Option.some.injEq] at h
            rw [← h]
            exact hsame p2 r2 _ hx
  · intro p
    cases hbody : p.body with
    | none => simp [Encode, hbody]
    | some a =>
      cases a with
      | buf b => simp [Encode, hbody]
      | ownBuffer => simp [Encode, hbody]
      | val ref =>
        cases hc : p.codec with
        | none => simp [Encode, hbody, hc]
        | some c =>
          cases he : (c.Encode Buffer.New (some (Any.val ref))).2 <;>
            simp [Encode, hbody, hc, he]
  · intro p msg
    cases hc : p.codec with
    | none => simp [DecodeBody, hc]
    | some c =>
      cases he : (c.Decode p.buffer msg).2 <;> simp [DecodeBody, hc, he]

/-- C8: a packet `x` with a typed body and a codec is encoded from an empty
buffer, the codec succeeding; `x` holds no occupied extension slot, as no
packet can (`no_slots_is_kept`). For every packet `q` without body that
holds the resulting buffer, `Decode` succeeds without calling the codec,
leaves the body absent, and leaves unread exactly the bytes that the codec
produced in `Encode`; a following `DecodeBody(target)` hands this buffer and
`target` to the codec of `q`. -/
theorem Decode_deferred_body (q x : Packet) (c : Codec) (ref : Nat)
    (hx : x.WellTyped) (hext : ∀ s ∈ x.extras, s = [])
    (hxbuf : ∀ b, x.buffer = some b → b = Buffer.New)
    (hbody : x.body = some (Any.val ref)) (hcodec : x.codec = some c)
    (henc : (c.Encode Buffer.New (some (Any.val ref))).2 = none)
    (hq : q.body = none) (hqb : q.buffer = (Encode x).p.buffer) :
    (Encode x).err = none ∧
    (Encode x).calls = [CodecCall.encode Buffer.New (some (Any.val ref))] ∧
    bufferData (Encode x).p.buffer
      = (encodeHead x).Flush ++ (c.Encode Buffer.New (some (Any.val ref))).1.data ∧
    ∃ r : Ret, Decode q = some r ∧ r.err = none ∧ r.calls = [] ∧ r.p.body = none ∧
      r.p.codec = q.codec ∧
      bufferData r.p.buffer = bufferData q.buffer ∧
      bufferRemaining r.p.buffer = (c.Encode Buffer.New (some (Any.val ref))).1.data ∧
      (∀ (c2 : Codec) (target : Option Any), q.codec = some c2 →
        (DecodeBody r.p target).calls = [CodecCall.decode r.p.buffer target] ∧
        (DecodeBody r.p target).err = (c2.Decode r.p.buffer target).2) := by
  have hb0 : (match x.buffer with | some b => b | none => Buffer.New) = Buffer.New := by
    cases hb : x.buffer with
    | none => rfl
    | some b => exact hxbuf b hb
  have hE : (Encode x).err = none ∧
      (Encode x).calls = [CodecCall.encode Buffer.New (some (Any.val ref))] ∧
      (Encode x).p.buffer
        = some ⟨(encodeHead x).Flush ++ (c.Encode Buffer.New (some (Any.val ref))).1.data, 0⟩ := by
    simp only [Encode, hbody, hcodec, hb0, henc]
    simp [Buffer.Append, Buffer.AppendBuffer, Buffer.New]
  obtain ⟨r1, hrem, hdata, hdec⟩ := Decode_header q x
    ⟨(encodeHead x).Flush ++ (c.Encode Buffer.New (some (Any.val ref))).1.data, 0⟩
    (c.Encode Buffer.New (some (Any.val ref))).1.data hx hext (hqb.trans hE.2.2)
    (by simp [Buffer.remaining])
  have hdec1 : Decode q = some ⟨{ readNamed q x with buffer := some r1.buff }, none, []⟩ := by
    rw [hdec, hq]
  refine ⟨hE.1, hE.2.1, by rw [hE.2.2]; rfl, _, hdec1, rfl, rfl, ?_, rfl, ?_, ?_, ?_⟩
  · simp [readNamed, hq]
  · rw [hqb, hE.2.2]
    simpa [bufferData] using hdata
  · simpa [bufferRemaining] using hrem
  · intro c2 target hc2
    have hc : (readNamed q x).codec = some c2 := hc2
    simp only [DecodeBody, hc]
    cases he : (c2.Decode (some r1.buff) target).2 <;> exact ⟨rfl, rfl⟩

theorem codecBodyPacket_wellTyped : codecBodyPacket.WellTyped :=
  ⟨samplePacket_wellTyped.contentType_lt, samplePacket_wellTyped.command_lt,
    samplePacket_wellTyped.status_lt, samplePacket_wellTyped.msgID_lt,
    samplePacket_wellTyped.heads_nodup⟩

/-- Witness of C8: the sample packet with a typed body is encoded with the
sample codec, which writes `{}`; a packet without body decodes the buffer
and leaves exactly these two bytes unread. -/
theorem Decode_deferred_body_witness :
    codecBodyPacket.WellTyped ∧ codecBodyPacket.extras = [] ∧ receivingPacket.body = none ∧
    (Encode codecBodyPacket).err = none ∧
    ∃ r : Ret, Decode receivingPacket = some r ∧ r.err = none ∧ r.calls = [] ∧
      r.p.body = none ∧ bufferRemaining r.p.buffer = [123, 125] :=
  ⟨codecBodyPacket_wellTyped, rfl, rfl,
    match Decode_deferred_body receivingPacket codecBodyPacket sampleCodec 1
      codecBodyPacket_wellTyped
      (by intro s h; exact absurd h (by simp [codecBodyPacket, samplePacket, New]))
      (by intro b h; exact absurd h (by simp [codecBodyPacket, samplePacket, New]))
      rfl rfl rfl rfl rfl with
    | ⟨he, _, _, r, hd, hr, hc, hb, _, _, hrem, _⟩ => ⟨he, r, hd, hr, hc, hb, hrem⟩⟩

theorem decodeHead_error_position (p : Packet) (r : Reader) (e : Error) :
    (decodeHead p r).2.2 = some e →
      ∃ k, 1 ≤ k ∧ k ≤ 9 ∧ UnchangedFrom k p (decodeHead p r).1 := by
  unfold decodeHead
  simp only []
  split
  · exact fun _ => ⟨1, by decide, by decide, ⟨fun _ => rfl, fun _ => rfl, fun _ => rfl,
      fun _ => rfl, fun _ => rfl, fun _ => rfl, fun _ => rfl, fun _ => rfl, fun _ => rfl⟩⟩
  · split
    · exact fun _ => ⟨2, by decide, by decide, ⟨fun h => absurd h (by decide), fun _ => rfl,
        fun _ => rfl, fun _ => rfl, fun _ => rfl, fun _ => rfl, fun _ => rfl, fun _ => rfl,
        fun _ => rfl⟩⟩
    · split
      · exact fun _ => ⟨3, by decide, by decide, ⟨fun h => absurd h (by decide),
          fun h => absurd h (by decide), fun _ => rfl, fun _ => rfl, fun _ => rfl, fun _ => rfl,
          fun _ => rfl, fun _ => rfl, fun _ => rfl⟩⟩
      · split
        · exact fun _ => ⟨4, by decide, by decide, ⟨fun h => absurd h (by decide),
            fun h => absurd h (by decide), fun h => absurd h (by decide), fun _ => rfl,
            fun _ => rfl, fun _ => rfl, fun _ => rfl, fun _ => rfl, fun _ => rfl⟩⟩
        · split
          · exact fun _ => ⟨5, by decide, by decide, ⟨fun h => absurd h (by decide),
              fun h => absurd h (by decide), fun h => absurd h (by decide),
              fun h => absurd h (by decide), fun _ => rfl, fun _ => rfl, fun _ => rfl,
              fun _ => rfl, fun _ => rfl⟩⟩
          · split
            · exact fun _ => ⟨6, by decide, by decide, ⟨fun h => absurd h (by decide),
                fun h => absurd h (by decide), fun h => absurd h (by decide),
                fun h => absurd h (by decide), fun h => absurd h (by decide), fun _ => rfl,
                fun _ => rfl, fun _ => rfl, fun _ => rfl⟩⟩
            · split
              · exact fun _ => ⟨7, by decide, by decide, ⟨fun h => absurd h (by decide),
                  fun h => absurd h (by decide), fun h => absurd h (by decide),
                  fun h => absurd h (by decide), fun h => absurd h (by decide),
                  fun h => absurd h (by decide), fun _ => rfl, fun _ => rfl, fun _ => rfl⟩⟩
              · split
                · exact fun _ => ⟨8, by decide, by decide, ⟨fun h => absurd h (by decide),
                    fun h => absurd h (by decide), fun h => absurd h (by decide),
                    fun h => absurd h (by decide), fun h => absurd h (by decide),
                    fun h => absurd h (by decide), fun h => absurd h (by decide), fun _ => rfl,
                    fun _ => rfl⟩⟩
                · split
                  · exact fun _ => ⟨9, by decide, by decide, ⟨fun h => absurd h (by decide),
                      fun h => absurd h (by decide), fun h => absurd h (by decide),
                      fun h => absurd h (by decide), fun h => absurd h (by decide),
                      fun h => absurd h (by decide), fun h => absurd h (by decide),
                      fun h => absurd h (by decide), fun _ => rfl⟩⟩
                  · exact fun h => Option.noConfusion h

/-- C12 (amended): whenever `Decode` meets a header-parsing error it returns
that error without attempting body decoding (no call to the codec), and the
body, the codec, the fields that are not serialized and every named field
whose bit is unset equal their value before the call. When the bitmask cannot
be read the whole packet is unchanged. When a named field fails, the
extension slots are unchanged and so is every named field from some position
of the reading order on, the failing one: only named fields read before it
can differ. When a string of the extension loop fails, a packet without slots
still has none. -/
theorem Decode_header_error (q : Packet) :
    (∀ e : Error, Reader.Init q.buffer = .error e → Decode q = some ⟨q, some e, []⟩) ∧
    (∀ (r0 : Reader) (e : Error), Reader.Init q.buffer = .ok r0 →
      (decodeHead q r0).2.2 = some e →
      ∃ r : Ret, Decode q = some r ∧ r.err = some e ∧ r.calls = [] ∧
        HeadFrame (wireFlag (bufferRemaining q.buffer)) q r.p ∧
        ∃ k, 1 ≤ k ∧ k ≤ 9 ∧ UnchangedFrom k q r.p) ∧
    (∀ (r0 : Reader) (p2 : Packet) (r2 : Reader) (e : Error),
      Reader.Init q.buffer = .ok r0 → (decodeHead q r0).2.2 = none →
      (decodeHead q r0).2.1.HasFlag (HFExtraMask % 2 ^ 64) = true →
      decodeExtras (HFMax - HFExtra) HFExtra (decodeHead q r0).1 (decodeHead q r0).2.1
        = some (p2, r2, some e) →
      ∃ r : Ret, Decode q = some r ∧ r.err = some e ∧ r.calls = [] ∧
        HeadFrame (wireFlag (bufferRemaining q.buffer)) q { r.p with extras := q.extras } ∧
        (q.extras = [] → r.p.extras = [])) := by
  refine ⟨?_, ?_, ?_⟩
  · intro e h
    simp [Decode, h]
  · intro r0 e hinit herr
    have hfr := (decodeHead_frame q r0).1
    rw [Reader.Init_flag hinit] at hfr
    obtain ⟨k, hk1, hk9, hu⟩ := decodeHead_error_position q r0 e herr
    have hdec : Decode q = some ⟨{ (decodeHead q r0).1 with
        buffer := some (decodeHead q r0).2.1.buff }, some e, []⟩ := by
      unfold Decode
      simp only [hinit]
      split
      · rename_i p1 r1 err hhead
        rw [hhead] at herr
        simp only [Option.some.injEq] at herr
        rw [hhead, herr]
      · rename_i p1 r1 hhead
        rw [hhead] at herr
        exact Option.noConfusion herr
    exact ⟨_, hdec, rfl, rfl,
      ⟨hfr.ack, hfr.status, hfr.contentType, hfr.command, hfr.seqID, hfr.msgID, hfr.name,
        hfr.method, hfr.service, hfr.heads, hfr.extras, hfr.body, hfr.codec, hfr.internal,
        hfr.ttl, hfr.retry, hfr.priority, hfr.callInfo⟩,
      k, hk1, hk9,
      ⟨hu.status, hu.contentType, hu.command, hu.seqID, hu.msgID, hu.name, hu.method,
        hu.service, hu.heads⟩⟩
  · intro r0 p2 r2 e hinit hnone hflag hext
    have hfr := (decodeHead_frame q r0).1
    rw [Reader.Init_flag hinit] at hfr
    obtain ⟨ex, hp2⟩ := decodeExtras_frame _ _ _ _ _ _ _ hext
    have hdec : Decode q = some ⟨{ p2 with buffer := some r2.buff }, some e, []⟩ := by
      unfold Decode
      simp only [hinit]
      split
      · rename_i p1 r1 err hhead
        rw [hhead] at hnone
        exact Option.noConfusion hnone
      · rename_i p1 r1 hhead
        rw [hhead] at hflag hext
        simp only [] at hflag hext
        simp only [hflag, if_true, hext]
    refine ⟨_, hdec, rfl, rfl, ?_, ?_⟩
    · rw [hp2]
      exact ⟨hfr.ack, hfr.status, hfr.contentType, hfr.command, hfr.seqID, hfr.msgID,
        hfr.name, hfr.method, hfr.service, hfr.heads, rfl, hfr.body, hfr.codec, hfr.internal,
        hfr.ttl, hfr.retry, hfr.priority, hfr.callInfo⟩
    · intro h0
      exact decodeExtras_keeps_no_slots _ _ _ _ p2 r2 _ (hfr.extras.trans h0) hext

/-- Witness of C12 (amended): an empty buffer fails in the bitmask and the
packet is unchanged; on the cut-off header the error is returned without a
codec call, and `name`, whose bit is unset, and `heads`, read after the
failing `seqID`, are as before; a buffer that ends inside the extension loop
gives the error without a codec call. -/
theorem Decode_header_error_witness :
    Reader.Init emptyBufferPacket.buffer = .error Error.malformed ∧
    Decode emptyBufferPacket = some ⟨emptyBufferPacket, some Error.malformed, []⟩ ∧
    Reader.Init truncatedPacket.buffer = .ok ⟨18, ⟨[18, 5, 3, 97], 1⟩⟩ ∧
    (∃ r : Ret, Decode truncatedPacket = some r ∧ r.err = some Error.malformed ∧
      r.calls = [] ∧ r.p.name = truncatedPacket.name ∧
      ∃ k, 1 ≤ k ∧ k ≤ 9 ∧ UnchangedFrom k truncatedPacket r.p) ∧
    Reader.Init slotErrorPacket.buffer = .ok ⟨1024, ⟨[128, 8, 0], 2⟩⟩ ∧
    (∃ r : Ret, Decode slotErrorPacket = some r ∧ r.err = some Error.malformed ∧
      r.calls = [] ∧ r.p.extras = []) :=
  ⟨rfl, (Decode_header_error emptyBufferPacket).1 Error.malformed rfl, rfl,
    (match (Decode_header_error truncatedPacket).2.1 ⟨18, ⟨[18, 5, 3, 97], 1⟩⟩ Error.malformed
      rfl rfl with
    | ⟨r, hd, he, hc, hf, hk⟩ => ⟨r, hd, he, hc, hf.name (by decide), hk⟩),
    rfl,
    (match (Decode_header_error slotErrorPacket).2.2 ⟨1024, ⟨[128, 8, 0], 2⟩⟩ slotErrorPacket
      ⟨1024, ⟨[128, 8, 0], 3⟩⟩ Error.malformed rfl rfl rfl rfl with
    | ⟨r, hd, he, hc, _, hx⟩ => ⟨r, hd, he, hc, hx rfl⟩)⟩

end packet

namespace httpx

/-! ## Registered functions and the state before the first write -/

theorem foldl_applyReg_state (regs : List Reg) :
    ∀ r : Response,
      (regs.foldl applyReg r).Status = r.Status ∧
      (regs.foldl applyReg r).Committed = r.Committed ∧
      (regs.foldl applyReg r).Size = r.Size ∧
      (regs.foldl applyReg r).Writer = r.Writer ∧
      (regs.foldl applyReg r).before = r.before ++ beforeOf regs := by
  induction regs with
  | nil => intro r; simp [beforeOf]
  | cons reg regs ih =>
    intro r
    cases reg with
    | before fn =>
      have h := ih (Before r fn)
      simp only [List.foldl_cons, applyReg]
      refine ⟨h.1, h.2.1, h.2.2.1, h.2.2.2.1, ?_⟩
      rw [h.2.2.2.2]
      simp [Before, beforeOf]
    | after fn =>
      have h := ih (After r fn)
      simp only [List.foldl_cons, applyReg]
      refine ⟨h.1, h.2.1, h.2.2.1, h.2.2.2.1, ?_⟩
      rw [h.2.2.2.2]
      simp [After, beforeOf]

theorem callAll_quiet (mk : Nat → Event) (fs : List Fn) :
    ∀ t : List Event, (∀ f ∈ fs, ∀ t1, f.panics t1 = false) →
      callAll mk fs t = (t ++ fs.map (fun f => mk f.id), false) := by
  induction fs with
  | nil => intro t _; simp [callAll]
  | cons f fs ih =>
    intro t h
    have hf : f.panics t = false := h f (List.mem_cons_self _ _) t
    simp only [callAll, hf]
    rw [ih (t ++ [mk f.id]) (fun g hg => h g (List.mem_cons_of_mem _ hg))]
    simp

theorem headerCodes_append (a b : List Event) :
    headerCodes (a ++ b) = headerCodes a ++ headerCodes b := by
  induction a with
  | nil => rfl
  | cons ev a ih => cases ev <;> simp [headerCodes, ih]

theorem beforeCalls_append (a b : List Event) :
    beforeCalls (a ++ b) = beforeCalls a ++ beforeCalls b := by
  induction a with
  | nil => rfl
  | cons ev a ih => cases ev <;> simp [beforeCalls, ih]

theorem headerCodes_map_before (l : List Fn) :
    headerCodes (l.map (fun f => Event.before f.id)) = [] := by
  induction l with
  | nil => rfl
  | cons fn l ih => simp [headerCodes, ih]

theorem beforeCalls_map_before (l : List Fn) :
    beforeCalls (l.map (fun f => Event.before f.id)) = l.map Fn.id := by
  induction l with
  | nil => rfl
  | cons fn l ih => simp [beforeCalls, ih]

theorem callAll_after_trace (fs : List Fn) :
    ∀ t : List Event, ∃ es : List Event, (callAll Event.after fs t).1 = t ++ es ∧
      headerCodes es = [] ∧ beforeCalls es = [] := by
  induction fs with
  | nil => intro t; exact ⟨[], by simp [callAll], rfl, rfl⟩
  | cons f fs ih =>
    intro t
    by_cases hf : f.panics t = true
    · exact ⟨[Event.after f.id], by simp [callAll, hf], rfl, rfl⟩
    · have hf1 : f.panics t = false := by simpa using hf
      obtain ⟨es, h1, h2, h3⟩ := ih (t ++ [Event.after f.id])
      refine ⟨Event.after f.id :: es, ?_, ?_, ?_⟩
      · simp [callAll, hf1, h1]
      · simp [headerCodes, h2]
      · simp [beforeCalls, h3]

theorem WriteHeader_uncommitted (r : Response) (w : ResponseWriter) (t : List Event)
    (code : Int) (hc : r.Committed = false) (hw : r.Writer = some w)
    (hq : ∀ f ∈ r.before, ∀ t1, f.panics t1 = false)
    (hp : w.headerPanics (t ++ r.before.map (fun f => Event.before f.id)) code = false) :
    WriteHeader r t code
      = Result.ret { r with Status := code, Committed := true }
          (t ++ r.before.map (fun f => Event.before f.id) ++ [Event.writeHeader code]) () := by
  simp [WriteHeader, hc, hw, callAll_quiet Event.before r.before t hq, hp]

/-- What `Write` does after the header: on a committed response it calls the
underlying `Write` and then the after-functions, whether or not one of them
panics or the writer is nil; the status and the commit flag stay, and neither
a before-function nor the underlying `WriteHeader` is called. -/
theorem Write_committed (r : Response) (t : List Event) (b : List Nat)
    (hc : r.Committed = true) :
    ∃ es : List Event, (Write r t b).trace = t ++ es ∧
      headerCodes es = [] ∧ beforeCalls es = [] ∧
      (Write r t b).response.Status = r.Status ∧
      (Write r t b).response.Committed = true := by
  cases hw : r.Writer with
  | none => exact ⟨[], by simp [Write, hc, hw, Result.trace], rfl, rfl,
      by simp [Write, hc, hw, Result.response], by simp [Write, hc, hw, Result.response]⟩
  | some w =>
    by_cases hp : w.writePanics t b = true
    · exact ⟨[Event.write b], by simp [Write, hc, hw, hp, Result.trace], rfl, rfl,
        by simp [Write, hc, hw, hp, Result.response],
        by simp [Write, hc, hw, hp, Result.response]⟩
    · have hp1 : w.writePanics t b = false := by simpa using hp
      obtain ⟨es, h1, h2, h3⟩ := callAll_after_trace r.after (t ++ [Event.write b])
      by_cases hq : (callAll Event.after r.after (t ++ [Event.write b])).2 = true
      · refine ⟨Event.write b :: es, ?_, ?_, ?_, ?_, ?_⟩
        · simp [Write, hc, hw, hp1, hq, Result.trace, h1]
        · simp [headerCodes, h2]
        · simp [beforeCalls, h3]
        · simp [Write, hc, hw, hp1, hq, Result.response]
        · simp [Write, hc, hw, hp1, hq, Result.response]
      · have hq1 : (callAll Event.after r.after (t ++ [Event.write b])).2 = false := by
          simpa using hq
        refine ⟨Event.write b :: es, ?_, ?_, ?_, ?_, ?_⟩
        · simp [Write, hc, hw, hp1, hq1, Result.trace, h1]
        · simp [headerCodes, h2]
        · simp [beforeCalls, h3]
        · simp [Write, hc, hw, hp1, hq1, Result.response]
        · simp [Write, hc, hw, hp1, hq1, Result.response]

/-- The first `Write` on an uncommitted response with the writer `w`, when no
before-function panics and the underlying `WriteHeader` returns: the
before-functions are called in order, then the underlying `WriteHeader` with
the status already set, or with 200 when none is set; what follows is the
underlying `Write` and the after-functions, which may panic. -/
theorem Write_uncommitted (r : Response) (w : ResponseWriter) (t : List Event) (b : List Nat)
    (hc : r.Committed = false) (hw : r.Writer = some w)
    (hq : ∀ f ∈ r.before, ∀ t1, f.panics t1 = false)
    (hp : w.headerPanics (t ++ r.before.map (fun f => Event.before f.id))
      (commitCode r (Op.write b)) = false) :
    ∃ es : List Event,
      (Write r t b).trace
        = t ++ (r.before.map (fun f => Event.before f.id) ++
            [Event.writeHeader (commitCode r (Op.write b))] ++ es) ∧
      headerCodes es = [] ∧ beforeCalls es = [] ∧
      (Write r t b).response.Status = commitCode r (Op.write b) ∧
      (Write r t b).response.Committed = true := by
  have hW : ∀ r0 : Response, r0.Committed = false → r0.Writer = some w →
      r0.before = r.before → r0.Status = commitCode r (Op.write b) →
      (match WriteHeader r0 t r0.Status with
        | Result.panic r1 t1 => (Result.panic r1 t1 : Result (Int × Option Nat))
        | Result.ret r1 t1 _ =>
          match r1.Writer with
          | none => Result.panic r1 t1
          | some w1 =>
            if w1.writePanics t1 b then Result.panic r1 (t1 ++ [Event.write b])
            else
              if (callAll Event.after
                  { r1 with Size := wrapInt64 (r1.Size + (w1.respond t1 b).1) }.after
                  (t1 ++ [Event.write b])).2
              then Result.panic { r1 with Size := wrapInt64 (r1.Size + (w1.respond t1 b).1) }
                (callAll Event.after
                  { r1 with Size := wrapInt64 (r1.Size + (w1.respond t1 b).1) }.after
                  (t1 ++ [Event.write b])).1
              else Result.ret { r1 with Size := wrapInt64 (r1.Size + (w1.respond t1 b).1) }
                (callAll Event.after
                  { r1 with Size := wrapInt64 (r1.Size + (w1.respond t1 b).1) }.after
                  (t1 ++ [Event.write b])).1 ((w1.respond t1 b).1, (w1.respond t1 b).2))
        = Write { r0 with Committed := true }
            (t ++ r.before.map (fun f => Event.before f.id) ++
              [Event.writeHeader (commitCode r (Op.write b))]) b := by
    intro r0 h0 h1 h2 h3
    rw [WriteHeader_uncommitted r0 w t r0.Status h0 h1 (by rw [h2]; exact hq)
      (by rw [h2, h3]; exact hp)]
    simp [Write, h1, h2, h3]
  have key : Write r t b
      = Write { r with Status := commitCode r (Op.write b), Committed := true }
          (t ++ r.before.map (fun f => Event.before f.id) ++
            [Event.writeHeader (commitCode r (Op.write b))]) b := by
    by_cases hs : r.Status = 0
    · have h := hW { r with Status := StatusOK } hc hw rfl (by simp [commitCode, hs])
      simp only [commitCode, hs, if_true] at h ⊢
      rw [← h]
      simp [Write, hc, hs]
    · have h := hW r hc hw rfl (by simp [commitCode, hs])
      simp only [commitCode, hs, if_false] at h ⊢
      have hr : ({ r with Status := r.Status, Committed := true } : Response)
          = { r with Committed := true } := rfl
      rw [hr, ← h]
      simp [Write, hc, hs]
  obtain ⟨es, h1, h2, h3, h4, h5⟩ := Write_committed
    { r with Status := commitCode r (Op.write b), Committed := true }
    (t ++ r.before.map (fun f => Event.before f.id) ++
      [Event.writeHeader (commitCode r (Op.write b))]) b rfl
  refine ⟨es, ?_, h2, h3, ?_, ?_⟩
  · rw [key, h1]; simp
  · rw [key, h4]
  · rw [key, h5]

/-- Once the response is committed, no sequence of calls, panicking or not,
calls a before-function or the underlying `WriteHeader`, and the status
stays. -/
theorem run_committed (ops : List Op) :
    ∀ (r : Response) (t : List Event), r.Committed = true →
      ∃ added : List Event, (run r t ops).2 = t ++ added ∧
        headerCodes added = [] ∧ beforeCalls added = [] ∧
        (run r t ops).1.Status = r.Status ∧ (run r t ops).1.Committed = true := by
  induction ops with
  | nil => intro r t hc; exact ⟨[], by simp [run], rfl, rfl, rfl, hc⟩
  | cons op ops ih =>
    intro r t hc
    cases op with
    | writeHeader code =>
      have hw : WriteHeader r t code = Result.ret r t () := by simp [WriteHeader, hc]
      obtain ⟨added, h1, h2, h3, h4, h5⟩ := ih r t hc
      refine ⟨added, ?_, h2, h3, ?_, ?_⟩
      · simp only [run, hw, Result.response, Result.trace]; exact h1
      · simp only [run, hw, Result.response, Result.trace]; exact h4
      · simp only [run, hw, Result.response, Result.trace]; exact h5
    | write b =>
      obtain ⟨es, g1, g2, g3, g4, g5⟩ := Write_committed r t b hc
      obtain ⟨added, h1, h2, h3, h4, h5⟩ := ih (Write r t b).response (Write r t b).trace g5
      refine ⟨es ++ added, ?_, ?_, ?_, ?_, ?_⟩
      · simp only [run]; rw [h1, g1]; simp
      · simp [headerCodes_append, g2, h2]
      · simp [beforeCalls_append, g3, h3]
      · simp only [run]; rw [h4, g4]
      · simp only [run]; exact h5

/-! ## The first write -/

/-- C17 (code evaluated at the failing input): on `r := NewResponse(w, nil)`
with `r.Status = 404` assigned and no call of `WriteHeader`, the first
`Write` passes 404 to the underlying `WriteHeader` and leaves `Status = 404`:
the implicit header is not sent with 200. -/
theorem Write_preset_status_not_200 :
    presetResponse.Committed = false ∧
    ∃ r1 : Response,
      Write presetResponse [] [1]
        = Result.ret r1 [Event.writeHeader 404, Event.write [1]] (1, none) ∧
      r1.Status = 404 ∧ r1.Committed = true :=
  ⟨rfl, _, rfl, rfl, rfl⟩

/-- When `Status` has not been assigned and no call panics: on an uncommitted
response with status 0 and a writer, `Write(b)` calls the registered
before-functions in order, then the underlying `WriteHeader` with 200, then
the underlying `Write` with `b`, then the after-functions; it returns what the
writer returned, leaves `Status = 200` and `Committed = true`, and `Size` is
increased by the number of bytes the writer reported. -/
theorem Write_implicit_200 (r : Response) (w : ResponseWriter) (t : List Event)
    (b : List Nat) (hS : r.Status = 0) (hC : r.Committed = false) (hW : r.Writer = some w)
    (hqb : ∀ f ∈ r.before, ∀ t1, f.panics t1 = false)
    (hqa : ∀ f ∈ r.after, ∀ t1, f.panics t1 = false)
    (hph : ∀ t1 c, w.headerPanics t1 c = false)
    (hpw : ∀ t1 b1, w.writePanics t1 b1 = false) :
    Write r t b
      = Result.ret
          { r with
            Status := 200, Committed := true,
            Size := wrapInt64 (r.Size +
              (w.respond (t ++ r.before.map (fun f => Event.before f.id) ++
                [Event.writeHeader 200]) b).1) }
          (t ++ r.before.map (fun f => Event.before f.id) ++ [Event.writeHeader 200] ++
            [Event.write b] ++ r.after.map (fun f => Event.after f.id))
          ((w.respond (t ++ r.before.map (fun f => Event.before f.id) ++
              [Event.writeHeader 200]) b).1,
            (w.respond (t ++ r.before.map (fun f => Event.before f.id) ++
              [Event.writeHeader 200]) b).2) := by
  simp [Write, WriteHeader, hC, hW, hS, callAll_quiet Event.before r.before t hqb,
    callAll_quiet Event.after r.after _ hqa, hph, hpw, StatusOK]

/-- A response created by `NewResponse` has status 0 and is not committed,
also after registrations; its before-functions are the registered ones. -/
theorem registered_state (w : Option ResponseWriter) (e : Option Nat) (regs : List Reg) :
    (registered w e regs).Status = 0 ∧ (registered w e regs).Committed = false ∧
    (registered w e regs).Size = 0 ∧ (registered w e regs).Writer = w ∧
    (registered w e regs).before = beforeOf regs := by
  have hst := foldl_applyReg_state regs (NewResponse w e)
  exact ⟨hst.1, hst.2.1, hst.2.2.1, hst.2.2.2.1, hst.2.2.2.2.trans (by simp [NewResponse])⟩

/-! ## The header is committed at most once -/

/-- C18 (counterexample): on a new response whose writer panics in
`WriteHeader` on a status code below 100, as the writer of `net/http` does,
with one before-function, `WriteHeader(99)` panics after the before-function
and the underlying `WriteHeader` were called, and leaves `Status = 99` and
`Committed = false`; the `WriteHeader(200)` that follows after `recover` calls
the before-function and the underlying `WriteHeader` a second time. -/
theorem header_committed_twice_after_panic :
    strictResponse.Committed = false ∧
    WriteHeader strictResponse [] 99
      = Result.panic { strictResponse with Status := 99 }
          [Event.before 7, Event.writeHeader 99] ∧
    (WriteHeader strictResponse [] 99).response.Committed = false ∧
    (run strictResponse [] [Op.writeHeader 99, Op.writeHeader 200]).2
      = [Event.before 7, Event.writeHeader 99, Event.before 7, Event.writeHeader 200] ∧
    headerCodes (run strictResponse [] [Op.writeHeader 99, Op.writeHeader 200]).2
      = [99, 200] ∧
    beforeCalls (run strictResponse [] [Op.writeHeader 99, Op.writeHeader 200]).2 = [7, 7] ∧
    (run strictResponse [] [Op.writeHeader 99, Op.writeHeader 200]).1.Status = 200 :=
  ⟨rfl, rfl, rfl, rfl, rfl, rfl, rfl⟩

/-- C18 (amended): on a committed response `WriteHeader(code)` changes
nothing: the response is as before and no function and no writer is called;
and whatever calls of `WriteHeader` and `Write` follow, panicking or not,
none of them calls a before-function or the underlying `WriteHeader`, and the
status stays. On an uncommitted response with a writer, when no
before-function panics and the underlying `WriteHeader` returns in the first
call, any sequence of `WriteHeader` and `Write` calls, the caller recovering
from a panic of the underlying `Write` or of an after-function, calls the
underlying `WriteHeader` at most once and the before-functions at most once,
and after a non-empty sequence `Status` is the code committed by the first
call, the only one passed to the writer. -/
theorem header_committed_once :
    (∀ (r : Response) (t : List Event) (code : Int),
      r.Committed = true → WriteHeader r t code = Result.ret r t ()) ∧
    (∀ (r : Response) (t : List Event) (ops : List Op),
      r.Committed = true →
      ∃ added : List Event, (run r t ops).2 = t ++ added ∧
        headerCodes added = [] ∧ beforeCalls added = [] ∧
        (run r t ops).1.Status = r.Status ∧ (run r t ops).1.Committed = true) ∧
    (∀ (r : Response) (w : ResponseWriter) (t : List Event) (ops : List Op),
      r.Committed = false → r.Writer = some w →
      (∀ f ∈ r.before, ∀ t1, f.panics t1 = false) →
      (∀ op rest, ops = op :: rest →
        w.headerPanics (t ++ r.before.map (fun f => Event.before f.id)) (commitCode r op)
          = false) →
      ∃ (r1 : Response) (added : List Event), run r t ops = (r1, t ++ added) ∧
        (headerCodes added).length ≤ 1 ∧
        (beforeCalls added = [] ∨ beforeCalls added = r.before.map Fn.id) ∧
        (∀ op rest, ops = op :: rest →
          r1.Status = commitCode r op ∧ r1.Committed = true ∧
          headerCodes added = [commitCode r op] ∧
          beforeCalls added = r.before.map Fn.id)) := by
  refine ⟨?_, ?_, ?_⟩
  · intro r t code hc
    simp [WriteHeader, hc]
  · intro r t ops hc
    exact run_committed ops r t hc
  · intro r w t ops hc hw hq hp
    cases ops with
    | nil =>
      exact ⟨r, [], by simp [run], by simp [headerCodes], Or.inl rfl,
        fun op rest h => List.noConfusion h⟩
    | cons op ops =>
      have hp1 := hp op ops rfl
      cases op with
      | writeHeader code =>
        have hwh := WriteHeader_uncommitted r w t code hc hw hq hp1
        obtain ⟨added, h1, h2, h3, h4, h5⟩ := run_committed ops
          { r with Status := code, Committed := true }
          (t ++ r.before.map (fun f => Event.before f.id) ++ [Event.writeHeader code]) rfl
        have hh : headerCodes (r.before.map (fun f => Event.before f.id) ++
            [Event.writeHeader code] ++ added) = [code] := by
          simp [headerCodes_append, headerCodes_map_before, headerCodes, h2]
        have hbf : beforeCalls (r.before.map (fun f => Event.before f.id) ++
            [Event.writeHeader code] ++ added) = r.before.map Fn.id := by
          simp [beforeCalls_append, beforeCalls_map_before, beforeCalls, h3]
        have hrun : run r t (Op.writeHeader code :: ops)
            = run { r with Status := code, Committed := true }
                (t ++ r.before.map (fun f => Event.before f.id) ++ [Event.writeHeader code])
                ops := by
          simp only [run, hwh, Result.response, Result.trace]
        refine ⟨(run r t (Op.writeHeader code :: ops)).1,
          r.before.map (fun f => Event.before f.id) ++ [Event.writeHeader code] ++ added,
          ?_, ?_, Or.inr hbf, ?_⟩
        · apply Prod.ext
          · rfl
          · rw [hrun, h1]; simp
        · rw [hh]; simp
        · intro op rest h
          simp only [List.cons.injEq] at h
          rw [← h.1, hrun]
          exact ⟨h4, h5, hh, hbf⟩
      | write b =>
        obtain ⟨es, g1, g2, g3, g4, g5⟩ := Write_uncommitted r w t b hc hw hq hp1
        obtain ⟨added, h1, h2, h3, h4, h5⟩ := run_committed ops
          (Write r t b).response (Write r t b).trace g5
        have hh : headerCodes (r.before.map (fun f => Event.before f.id) ++
            [Event.writeHeader (commitCode r (Op.write b))] ++ es ++ added)
            = [commitCode r (Op.write b)] := by
          simp [headerCodes_append, headerCodes_map_before, headerCodes, g2, h2]
        have hbf : beforeCalls (r.before.map (fun f => Event.before f.id) ++
            [Event.writeHeader (commitCode r (Op.write b))] ++ es ++ added)
            = r.before.map Fn.id := by
          simp [beforeCalls_append, beforeCalls_map_before, beforeCalls, g3, h3]
        have hrun : run r t (Op.write b :: ops)
            = run (Write r t b).response (Write r t b).trace ops := by
          simp only [run]
        refine ⟨(run r t (Op.write b :: ops)).1,
          r.before.map (fun f => Event.before f.id) ++
            [Event.writeHeader (commitCode r (Op.write b))] ++ es ++ added,
          ?_, ?_, Or.inr hbf, ?_⟩
        · apply Prod.ext
          · rfl
          · rw [hrun, h1, g1]; simp
        · rw [hh]; simp
        · intro op rest h
          simp only [List.cons.injEq] at h
          rw [← h.1, hrun]
          exact ⟨h4.trans g4, h5, hh, hbf⟩

/-- Witness of C18: on the response whose writer panics on a status code below
100, with one before-function, a write, a late `WriteHeader(99)` and a second
write: the writer gets one `WriteHeader`, with 200, the before-function runs
once, and the status stays 200. -/
theorem header_committed_once_witness :
    ∃ (r1 : Response) (added : List Event),
      run strictResponse [] [Op.write [104], Op.writeHeader 99, Op.write [105]]
        = (r1, [] ++ added) ∧
      r1.Status = 200 ∧ r1.Committed = true ∧ headerCodes added = [200] ∧
      beforeCalls added = [7] :=
  match header_committed_once.2.2 strictResponse strictWriter []
      [Op.write [104], Op.writeHeader 99, Op.write [105]] rfl rfl
      (fun f hf t1 => by
        have h : f = quietFn 7 := by simpa [strictResponse, registered, NewResponse, applyReg,
          Before] using hf
        rw [h]; rfl)
      (fun op rest h => by
        simp only [List.cons.injEq] at h
        rw [← h.1]; decide) with
  | ⟨r1, added, h1, _, _, h4⟩ =>
    ⟨r1, added, h1, (h4 _ _ rfl).1, (h4 _ _ rfl).2.1, (h4 _ _ rfl).2.2.1, (h4 _ _ rfl).2.2.2⟩

end httpx

namespace watcher

/-! ## Alive messages -/

/-- C19 (code evaluated at the failing input): the watcher is started with
the names `["a"]`, and an alive message announces a service named `"b"`:
`onAlive` hands an upsert event to the callback and records the service, the
observed names are not looked at. -/
theorem onAlive_ignores_observed :
    startedWatcher.observed = some ["a"] ∧
    sampleEnv.Unmarshal "B" = some ⟨"u2", "b"⟩ ∧
    (startedWatcher.onAlive sampleEnv ⟨"svc", "u2", "B", 60⟩ 0).2
      = [Event.upsert "u2" ⟨"u2", "b"⟩] ∧
    (startedWatcher.onAlive sampleEnv ⟨"svc", "u2", "B", 60⟩ 0).1.services = ["u2"] := by
  decide

/-- C20 (code evaluated at the failing input): an alive message whose data
fails to unmarshal calls no callback and adds nothing to the expiry heap, but
its USN is recorded in the services; a later well-formed alive message with
the same USN then produces no event. -/
theorem onAlive_rejected_records_service :
    sampleEnv.Unmarshal "?" = none ∧
    (startedWatcher.onAlive sampleEnv ⟨"svc", "u1", "?", 60⟩ 0).2 = [] ∧
    (startedWatcher.onAlive sampleEnv ⟨"svc", "u1", "?", 60⟩ 0).1.services = ["u1"] ∧
    startedWatcher.services = [] ∧
    (startedWatcher.onAlive sampleEnv ⟨"svc", "u1", "?", 60⟩ 0).1.expired = [] ∧
    (((startedWatcher.onAlive sampleEnv ⟨"svc", "u1", "?", 60⟩ 0).1).onAlive sampleEnv
      ⟨"svc", "u1", "A", 60⟩ 1).2 = [] := by
  decide

/-- The result of `onAlive` does not depend on the observed names: with any
other value of `observed` the same events are emitted and the same services
and heap entries result. -/
theorem onAlive_independent_of_observed (env : Env) (w : _Watcher) (m : AliveMessage)
    (now : Int) (observed : Option (List String)) :
    (_Watcher.onAlive env { w with observed := observed } m now).2
      = (w.onAlive env m now).2 ∧
    (_Watcher.onAlive env { w with observed := observed } m now).1.services
      = (w.onAlive env m now).1.services ∧
    (_Watcher.onAlive env { w with observed := observed } m now).1.expired
      = (w.onAlive env m now).1.expired := by
  unfold _Watcher.onAlive _Watcher.add
  by_cases ht : m.MsgType = env.serviceTarget
  · by_cases hs : m.USN ∈ w.services
    · simp [ht, hs]
    · cases hu : env.Unmarshal m.Server <;> simp [ht, hs, hu]
  · simp [ht]

/-- An alive message of the service type whose data fails to unmarshal calls
no callback and leaves the expiry heap as it was, for every watcher; a USN
that was not recorded is recorded by it. -/
theorem onAlive_rejected (env : Env) (w : _Watcher) (m : AliveMessage) (now : Int)
    (ht : m.MsgType = env.serviceTarget) (hu : env.Unmarshal m.Server = none) :
    (w.onAlive env m now).2 = [] ∧ (w.onAlive env m now).1.expired = w.expired ∧
    (w.onAlive env m now).1.services = setTrue w.services m.USN := by
  unfold _Watcher.onAlive _Watcher.add
  by_cases hs : m.USN ∈ w.services
  · simp [ht, hs, setTrue]
  · simp [ht, hs, hu]

end watcher
